import Mathlib

/-!
# Verification of the data-alchemist validation and rule-inference engine

A shallow embedding, in Lean 4, of the core logic of the repository:

* `src/lib/validation.ts` — the eight `validationRules`, `runAIValidation`
  and `validateData`;
* `src/lib/ai-parser.ts` — `AIParser.parseRuleFromText`,
  `AIParser.generateCorrections`, `AIParser.generateRuleRecommendations`;
* `src/store/DataStore.ts` / `ValidationPanel.tsx` — `updateClient`,
  `updateWorker`, `updateTask` and `handleApplySuggestion`.

Entity rows are modelled as string-keyed records with string values
(`Row`), following the repository's ingestion pipeline (`excel-parser.ts`
produces string-valued records and the spec states that fields arrive as
strings, absent columns being representable as missing keys).  JavaScript
semantics that the source relies on — falsy/truthy tests, `parseInt`,
`Number(...)` coercion inside `<`/`>` comparisons, `JSON.parse`,
`String.prototype.split/trim/toLowerCase`, `Array.prototype.indexOf`,
`Set` and `Map` insertion-order behaviour — are embedded explicitly below.
-/

set_option maxHeartbeats 1000000

/-! ## JavaScript-flavoured string primitives -/

/-- Whitespace as trimmed by `String.prototype.trim` (ASCII part plus NBSP). -/
def jsIsWs (c : Char) : Bool :=
  c = ' ' || c = '\t' || c = '\n' || c = '\r' ||
  c = Char.ofNat 11 || c = Char.ofNat 12 || c = Char.ofNat 160

/-- Drop leading whitespace characters. -/
def dropWsList (l : List Char) : List Char := l.dropWhile jsIsWs

/-- `String.prototype.trim`. -/
def jsTrim (s : String) : String :=
  ⟨(dropWsList s.data.reverse).reverse |> dropWsList⟩

/-- `String.prototype.split(sep)` with a one-character separator,
matching JavaScript semantics (`"".split(',') = [""]`,
`"a,".split(',') = ["a", ""]`). -/
def jsSplitList (sep : Char) : List Char → List (List Char)
  | [] => [[]]
  | c :: cs =>
    let rest := jsSplitList sep cs
    if c = sep then [] :: rest
    else match rest with
      | [] => [[c]]
      | r :: rs => (c :: r) :: rs

/-- `String.prototype.split` with a one-character separator. -/
def jsSplit (sep : Char) (s : String) : List String :=
  (jsSplitList sep s.data).map (fun l => ⟨l⟩)

/-- ASCII lower-casing, as `String.prototype.toLowerCase` behaves on the
ASCII tags this repository manipulates. -/
def jsLower (s : String) : String := ⟨s.data.map Char.toLower⟩

/-- ASCII upper-casing (`String.prototype.toUpperCase`). -/
def jsUpper (s : String) : String := ⟨s.data.map Char.toUpper⟩

/-- Truthiness of a JavaScript string: every string except `""` is truthy. -/
def jsTruthy (s : String) : Bool := s ≠ ""

/-- Truthiness of a possibly-`undefined` string field. -/
def jsTruthyO : Option String → Bool
  | none => false
  | some s => jsTruthy s

/-- Template-literal rendering of a possibly-`undefined` string
(`undefined` prints as `"undefined"` inside a template literal). -/
def optStr : Option String → String
  | none => "undefined"
  | some s => s

def isDigitChar (c : Char) : Bool := '0' ≤ c && c ≤ '9'

def digitVal (c : Char) : Nat := c.toNat - 48

/-- Numeric value of a digit run. -/
def digitsVal (l : List Char) : Nat := l.foldl (fun a c => a * 10 + digitVal c) 0

/-- `parseInt(s)` (radix 10): skip leading whitespace, optional sign, then a
maximal run of leading digits; `none` models `NaN` (no digits found). -/
def jsParseInt (s : String) : Option Int :=
  let l := dropWsList s.data
  let (sign, l) : Int × List Char :=
    match l with
    | '-' :: rest => (-1, rest)
    | '+' :: rest => (1, rest)
    | _ => (1, l)
  let ds := l.takeWhile isDigitChar
  if ds.isEmpty then none else some (sign * digitsVal ds)

/-- An exact JavaScript number, kept as an unnormalized fraction
`num / den` so that every arithmetic step is plain integer arithmetic (the
numbers this code manipulates are small decimal literals, far below the
range where IEEE-754 doubles lose integer exactness).  `den` is positive
for every value built below. -/
structure JsNum where
  num : Int
  den : Nat
deriving DecidableEq, Repr

/-- The value of an integer as a `JsNum`. -/
def JsNum.ofInt (n : Int) : JsNum := ⟨n, 1⟩

/-- Exact `<` on fractions by cross-multiplication. -/
def JsNum.lt (a b : JsNum) : Bool := a.num * (b.den : Int) < b.num * (a.den : Int)

/-- `n < q` for an integer `n`. -/
def JsNum.ltOfInt (n : Int) (q : JsNum) : Bool := n * (q.den : Int) < q.num

/-- `q < n` for an integer `n`. -/
def JsNum.gtOfInt (n : Int) (q : JsNum) : Bool := q.num < n * (q.den : Int)

/-- `n ≤ q` for an integer `n`. -/
def JsNum.leOfInt (n : Int) (q : JsNum) : Bool := n * (q.den : Int) ≤ q.num

/-- The rational value of a `JsNum` (used in specification statements
only, never in computations). -/
def JsNum.toRat (q : JsNum) : Rat := (q.num : Rat) / (q.den : Rat)

/-- `Number(s)` coercion as used by JavaScript relational operators on the
decimal strings this data set carries: surrounding whitespace is ignored,
the empty string coerces to `0`, and an optional sign followed by a decimal
literal (integer part, optional fraction, optional exponent) yields its
exact value as a fraction; every other shape is `NaN` (`none`). -/
def jsNumber (s : String) : Option JsNum :=
  let l := dropWsList (dropWsList s.data.reverse).reverse
  if l.isEmpty then some ⟨0, 1⟩ else
  let (sign, l) : Int × List Char :=
    match l with
    | '-' :: rest => (-1, rest)
    | '+' :: rest => (1, rest)
    | _ => (1, l)
  let ip := l.takeWhile isDigitChar
  let l := l.drop ip.length
  let (fp, l) : List Char × List Char :=
    match l with
    | '.' :: rest => (rest.takeWhile isDigitChar, rest.drop (rest.takeWhile isDigitChar).length)
    | _ => ([], l)
  if ip.isEmpty ∧ fp.isEmpty then none else
  let mantissa : JsNum :=
    ⟨sign * (digitsVal ip * 10 ^ fp.length + digitsVal fp : Nat), 10 ^ fp.length⟩
  match l with
  | [] => some mantissa
  | 'e' :: rest => jsNumberExp mantissa rest
  | 'E' :: rest => jsNumberExp mantissa rest
  | _ => none
where
  /-- Exponent part of a decimal literal: scales the mantissa by `10^±e`. -/
  jsNumberExp (mantissa : JsNum) (l : List Char) : Option JsNum :=
    let (esign, l) : Bool × List Char :=
      match l with
      | '-' :: rest => (true, rest)
      | '+' :: rest => (false, rest)
      | _ => (false, l)
    let ds := l.takeWhile isDigitChar
    if ds.isEmpty ∨ l.length ≠ ds.length then none
    else if esign then some ⟨mantissa.num, mantissa.den * 10 ^ digitsVal ds⟩
    else some ⟨mantissa.num * (10 ^ digitsVal ds : Nat), mantissa.den⟩

/-- `a < b` where `a` is a string field and `b` an integer: JavaScript
coerces the string with `Number`; any `NaN` comparison is `false`. -/
def jsLtNum (s : String) (b : Int) : Bool :=
  match jsNumber s with
  | none => false
  | some q => JsNum.gtOfInt b q

/-- `a > b` with string `a` and integer `b` (see `jsLtNum`). -/
def jsGtNum (s : String) (b : Int) : Bool :=
  match jsNumber s with
  | none => false
  | some q => JsNum.ltOfInt b q

/-- `a >= b` with string `a` and integer `b` (see `jsLtNum`). -/
def jsGeNum (s : String) (b : Int) : Bool :=
  match jsNumber s with
  | none => false
  | some q => JsNum.leOfInt b q

/-- First index of `x` in `l`, or `-1` (`Array.prototype.indexOf`). -/
def jsIndexOf (l : List String) (x : String) : Int :=
  go l 0
where
  go : List String → Int → Int
    | [], _ => -1
    | y :: ys, i => if y = x then i else go ys (i + 1)

/-- `[...new Set(l)]`: deduplicate keeping first occurrences, in order. -/
def jsSetOf (l : List String) : List String := go [] l
where
  go (seen : List String) : List String → List String
    | [] => []
    | x :: xs => if x ∈ seen then go seen xs else x :: go (x :: seen) xs

/-! ## A model of `JSON.parse`

The engine only ever asks three questions of a parsed document: did parsing
succeed, is the result an array, and is each element a number — so `Json`
stores numeric literals uninterpreted.  The grammar follows RFC 8259 as
`JSON.parse` implements it (strict literals, no trailing commas, `"` strings
with escapes, decimal numbers without leading zeros). -/

inductive Json where
  | null : Json
  | bool (b : Bool) : Json
  | num (lit : String) : Json
  | str (s : String) : Json
  | arr (elems : List Json) : Json
  | obj (fields : List (String × Json)) : Json

def Json.isNumber : Json → Bool
  | .num _ => true
  | _ => false

def jsonIsWs (c : Char) : Bool :=
  c = ' ' || c = '\t' || c = '\n' || c = '\r'

def jsonSkipWs (l : List Char) : List Char := l.dropWhile jsonIsWs

/-- One JSON number literal: `-?(0|[1-9][0-9]*)(\.[0-9]+)?([eE][+-]?[0-9]+)?`.
Returns the literal text and the rest of the input. -/
def jsonNumLit (l : List Char) : Option (List Char × List Char) := do
  let (sign, l1) : List Char × List Char :=
    match l with
    | '-' :: rest => (['-'], rest)
    | _ => ([], l)
  let ds := l1.takeWhile isDigitChar
  if ds.isEmpty then none else
  if ds.length > 1 ∧ ds.head? = some '0' then none else
  let l2 := l1.drop ds.length
  let (frac, l3) : List Char × List Char :=
    match l2 with
    | '.' :: rest =>
      let fs := rest.takeWhile isDigitChar
      if fs.isEmpty then ([], l2) else ('.' :: fs, rest.drop fs.length)
    | _ => ([], l2)
  if l2 ≠ l3 ∨ frac.isEmpty then
    -- either a fraction was consumed or there was none at all
    pure ()
  else none
  let (expo, l4) : Option (List Char) × List Char :=
    match l3 with
    | e :: rest =>
      if e = 'e' ∨ e = 'E' then
        let (sg, r2) : List Char × List Char :=
          match rest with
          | '+' :: r => (['+'], r)
          | '-' :: r => (['-'], r)
          | _ => ([], rest)
        let es := r2.takeWhile isDigitChar
        if es.isEmpty then (none, l3) else (some (e :: sg ++ es), r2.drop es.length)
      else (none, l3)
    | _ => (none, l3)
  match expo with
  | none =>
    if l3 = l4 then some (sign ++ ds ++ frac, l3) else none
  | some ex => some (sign ++ ds ++ frac ++ ex, l4)

/-- One JSON string body (after the opening quote), handling escapes. -/
def jsonStrBody (fuel : Nat) (l : List Char) : Option (List Char × List Char) :=
  match fuel, l with
  | 0, _ => none
  | _, [] => none
  | fuel + 1, c :: rest =>
    if c = '"' then some ([], rest)
    else if c = '\\' then
      match rest with
      | [] => none
      | e :: rest2 =>
        let esc : Option (List Char × List Char) :=
          if e = '"' then some (['"'], rest2)
          else if e = '\\' then some (['\\'], rest2)
          else if e = '/' then some (['/'], rest2)
          else if e = 'b' then some ([Char.ofNat 8], rest2)
          else if e = 'f' then some ([Char.ofNat 12], rest2)
          else if e = 'n' then some (['\n'], rest2)
          else if e = 'r' then some (['\r'], rest2)
          else if e = 't' then some (['\t'], rest2)
          else if e = 'u' then
            match rest2 with
            | a :: b :: c2 :: d :: rest3 =>
              if [a, b, c2, d].all (fun h => isDigitChar h || ('a' ≤ h && h ≤ 'f') || ('A' ≤ h && h ≤ 'F')) then
                let hv (h : Char) : Nat :=
                  if isDigitChar h then digitVal h
                  else if 'a' ≤ h && h ≤ 'f' then h.toNat - 87
                  else h.toNat - 55
                some ([Char.ofNat (((hv a * 16 + hv b) * 16 + hv c2) * 16 + hv d)], rest3)
              else none
            | _ => none
          else none
        match esc with
        | none => none
        | some (cs, rest3) =>
          match jsonStrBody fuel rest3 with
          | none => none
          | some (body, rest4) => some (cs ++ body, rest4)
    else if c.toNat < 32 then none
    else
      match jsonStrBody fuel rest with
      | none => none
      | some (body, rest2) => some (c :: body, rest2)

mutual

/-- One JSON value (leading whitespace already skipped). -/
def jsonVal (fuel : Nat) (l : List Char) : Option (Json × List Char) :=
  match fuel with
  | 0 => none
  | fuel + 1 =>
    match l with
    | [] => none
    | c :: rest =>
      if c = 'n' then
        match rest with
        | 'u' :: 'l' :: 'l' :: r => some (.null, r)
        | _ => none
      else if c = 't' then
        match rest with
        | 'r' :: 'u' :: 'e' :: r => some (.bool true, r)
        | _ => none
      else if c = 'f' then
        match rest with
        | 'a' :: 'l' :: 's' :: 'e' :: r => some (.bool false, r)
        | _ => none
      else if c = '"' then
        match jsonStrBody fuel rest with
        | none => none
        | some (body, r) => some (.str ⟨body⟩, r)
      else if c = Char.ofNat 91 then  -- '['
        match jsonSkipWs rest with
        | d :: r2 =>
          if d = Char.ofNat 93 then some (.arr [], r2)  -- ']'
          else
            match jsonElems fuel (jsonSkipWs rest) with
            | none => none
            | some (es, r3) =>
              match jsonSkipWs r3 with
              | e :: r4 => if e = Char.ofNat 93 then some (.arr es, r4) else none
              | [] => none
        | [] => none
      else if c = Char.ofNat 123 then  -- opening brace
        match jsonSkipWs rest with
        | d :: r2 =>
          if d = Char.ofNat 125 then some (.obj [], r2)  -- closing brace
          else
            match jsonMembers fuel (jsonSkipWs rest) with
            | none => none
            | some (ms, r3) =>
              match jsonSkipWs r3 with
              | e :: r4 => if e = Char.ofNat 125 then some (.obj ms, r4) else none
              | [] => none
        | [] => none
      else
        match jsonNumLit l with
        | none => none
        | some (lit, r) => some (.num ⟨lit⟩, r)

/-- Comma-separated JSON values. -/
def jsonElems (fuel : Nat) (l : List Char) : Option (List Json × List Char) :=
  match fuel with
  | 0 => none
  | fuel + 1 =>
    match jsonVal fuel l with
    | none => none
    | some (v, r) =>
      match jsonSkipWs r with
      | ',' :: r2 =>
        match jsonElems fuel (jsonSkipWs r2) with
        | none => none
        | some (vs, r3) => some (v :: vs, r3)
      | _ => some ([v], r)

/-- Comma-separated `"key": value` members. -/
def jsonMembers (fuel : Nat) (l : List Char) : Option (List (String × Json) × List Char) :=
  match fuel with
  | 0 => none
  | fuel + 1 =>
    match l with
    | '"' :: rest =>
      match jsonStrBody fuel rest with
      | none => none
      | some (key, r) =>
        match jsonSkipWs r with
        | ':' :: r2 =>
          match jsonVal fuel (jsonSkipWs r2) with
          | none => none
          | some (v, r3) =>
            match jsonSkipWs r3 with
            | ',' :: r4 =>
              match jsonMembers fuel (jsonSkipWs r4) with
              | none => none
              | some (ms, r5) => some ((⟨key⟩, v) :: ms, r5)
            | _ => some ([(⟨key⟩, v)], r3)
        | _ => none
    | _ => none

end

/-- `JSON.parse(s)`: `none` models a thrown `SyntaxError`. -/
def jsonParse (s : String) : Option Json :=
  match jsonVal (s.length + 1) (jsonSkipWs s.data) with
  | none => none
  | some (v, rest) => if (jsonSkipWs rest).isEmpty then some v else none

/-! ## Record model

A parsed entity row is a string-keyed record of string values; a missing
key models an `undefined` field.  `Client`, `Worker` and `Task` from
`src/types/index.ts` all erase to this shape at runtime, which is how
`validation.ts` treats them (`as unknown as Record<string, unknown>[]`). -/

/-- One entity row: association list from column name to string value. -/
abbrev Row : Type := List (String × String)

/-- `row[k]`: `none` models `undefined`. -/
def rowGet (r : Row) (k : String) : Option String :=
  match r.find? (fun p => p.1 = k) with
  | none => none
  | some p => some p.2

/-- Object spread update `{...r, k: v}` (replaces the value of `k`, or adds
the key). -/
def rowSet (r : Row) (k : String) (v : String) : Row :=
  if (r.find? (fun p => p.1 = k)).isSome then
    r.map (fun p => if p.1 = k then (k, v) else p)
  else r ++ [(k, v)]

/-- The tri-collection snapshot (`ValidationContext` in `validation.ts`). -/
structure ValidationContext where
  clients : List Row
  workers : List Row
  tasks : List Row
deriving DecidableEq

/-- A Diagnostic (`ValidationResult` in `src/types/index.ts`).  `severity`
and `entity` are kept as the raw strings the source stores (the source
writes the plural collection tag into `entity` in two of the rules). -/
structure ValidationResult where
  id : String
  type : String
  severity : String
  message : String
  entity : String
  entityId : Option String := none
  field : Option String := none
  suggestion : Option String := none
  fixable : Option Bool := none
deriving DecidableEq

/-! ## Field validators (`validationRules` in `src/lib/validation.ts`) -/

/-- The fixed required-column lists (`requiredColumns` in
`missingRequiredColumns`). -/
def requiredColumns (entityType : String) : List String :=
  if entityType = "clients" then
    ["ClientID", "ClientName", "PriorityLevel", "RequestedTaskIDs", "GroupTag", "AttributesJSON"]
  else if entityType = "workers" then
    ["WorkerID", "WorkerName", "Skills", "AvailableSlots", "MaxLoadPerPhase", "WorkerGroup", "QualificationLevel"]
  else if entityType = "tasks" then
    ["TaskID", "TaskName", "Category", "Duration", "RequiredSkills", "PreferredPhases", "MaxConcurrent"]
  else []

/-- Rule 1, `validationRules.missingRequiredColumns`: a required column is
missing when no row defines it (`!data.some(row => row[col] !== undefined)`). -/
def missingRequiredColumns (data : List Row) (entityType : String) : List ValidationResult :=
  let required := requiredColumns entityType
  let missing := required.filter (fun col => ¬ data.any (fun row => (rowGet row col).isSome))
  missing.map (fun col =>
    { id := "missing-" ++ col
      type := "missing_required_column"
      severity := "error"
      message := "Missing required column: " ++ col
      entity := entityType
      field := some col
      fixable := some false })

/-- The id column for an entity collection tag. -/
def idFieldOf (entityType : String) : String :=
  if entityType = "clients" then "ClientID"
  else if entityType = "workers" then "WorkerID" else "TaskID"

/-- Rule 2, `validationRules.duplicateIDs`: collect truthy id values,
keep the occurrences whose index differs from their first index
(`ids.filter((id, index) => ids.indexOf(id) !== index)`), then deduplicate
with `new Set` and report each once. -/
def duplicateIDs (data : List Row) (entityType : String) : List ValidationResult :=
  let idField := idFieldOf entityType
  let ids := (data.map (fun row => rowGet row idField)).filterMap
    (fun v => match v with
      | none => none
      | some s => if jsTruthy s then some s else none)
  let duplicates := (ids.enum.filter (fun p => jsIndexOf ids p.2 ≠ (p.1 : Int))).map (fun p => p.2)
  (jsSetOf duplicates).map (fun id =>
    { id := "duplicate-" ++ id
      type := "duplicate_id"
      severity := "error"
      message := "Duplicate ID found: " ++ id
      entity := (entityType.dropRight 1)
      entityId := some id
      field := some idField
      fixable := some true
      suggestion := some ("Remove or change the duplicate ID (" ++ id ++ ")") })

/-- The comma-separated list fields checked per entity
(`listFields` in `malformedLists`). -/
def listFieldsOf (entityType : String) : List String :=
  if entityType = "clients" then ["RequestedTaskIDs"]
  else if entityType = "workers" then ["Skills"]
  else if entityType = "tasks" then ["RequiredSkills", "PreferredPhases"] else []

/-- Rule 3, `validationRules.malformedLists`: for workers,
`AvailableSlots` must `JSON.parse` to an array of numbers; every declared
comma-separated field must not contain entries that are empty after
trimming (one warning per offending row and field). -/
def malformedLists (data : List Row) (entityType : String) : List ValidationResult :=
  (data.enum).flatMap (fun (p : Nat × Row) =>
    let index := p.1
    let row := p.2
    let slotDiags : List ValidationResult :=
      if entityType = "workers" ∧ jsTruthyO (rowGet row "AvailableSlots") then
        match rowGet row "AvailableSlots" with
        | none => []
        | some raw =>
          match jsonParse raw with
          | some j =>
            match j with
            | .arr elems =>
              if elems.all Json.isNumber then []
              else [{ id := "malformed-slots-" ++ toString index
                      type := "malformed_list"
                      severity := "error"
                      message := "AvailableSlots must be a JSON array of numbers"
                      entity := "worker"
                      entityId := rowGet row "WorkerID"
                      field := some "AvailableSlots"
                      fixable := some true
                      suggestion := some "Format as JSON array, e.g., [1, 3, 5]" }]
            | _ =>
              [{ id := "malformed-slots-" ++ toString index
                 type := "malformed_list"
                 severity := "error"
                 message := "AvailableSlots must be a JSON array of numbers"
                 entity := "worker"
                 entityId := rowGet row "WorkerID"
                 field := some "AvailableSlots"
                 fixable := some true
                 suggestion := some "Format as JSON array, e.g., [1, 3, 5]" }]
          | none =>
            [{ id := "malformed-slots-" ++ toString index
               type := "malformed_list"
               severity := "error"
               message := "Invalid JSON in AvailableSlots"
               entity := "worker"
               entityId := rowGet row "WorkerID"
               field := some "AvailableSlots"
               fixable := some true
               suggestion := some "Format as JSON array, e.g., [1, 3, 5]" }]
      else []
    let listDiags : List ValidationResult :=
      (listFieldsOf entityType).flatMap (fun field =>
        match rowGet row field with
        | none => []
        | some s =>
          if jsTruthy s then
            let items := (jsSplit ',' s).map jsTrim
            if items.any (fun item => ¬ jsTruthy item) then
              [{ id := "malformed-list-" ++ field ++ "-" ++ toString index
                 type := "malformed_list"
                 severity := "warning"
                 message := "Empty items in " ++ field ++ " list"
                 entity := entityType
                 entityId := rowGet row (idFieldOf entityType)
                 field := some field
                 fixable := some true
                 suggestion := some "Remove empty items from the list" }]
            else []
          else [])
    slotDiags ++ listDiags)

/-- Rule 4, `validationRules.outOfRangeValues`: `PriorityLevel` must parse
to an integer in `[1, 5]`, `Duration` and `MaxLoadPerPhase` to an integer
`≥ 1`; each check is guarded by the field being truthy. -/
def outOfRangeValues (data : List Row) (entityType : String) : List ValidationResult :=
  (data.enum).flatMap (fun (p : Nat × Row) =>
    let index := p.1
    let row := p.2
    let priorityDiags : List ValidationResult :=
      if entityType = "clients" ∧ jsTruthyO (rowGet row "PriorityLevel") then
        match jsParseInt (optStr (rowGet row "PriorityLevel")) with
        | none =>
          [{ id := "priority-range-" ++ toString index
             type := "out_of_range", severity := "error"
             message := "PriorityLevel must be between 1 and 5"
             entity := "client", entityId := rowGet row "ClientID"
             field := some "PriorityLevel", fixable := some true
             suggestion := some "Set PriorityLevel to a value between 1 and 5" }]
        | some priority =>
          if priority < 1 ∨ priority > 5 then
            [{ id := "priority-range-" ++ toString index
               type := "out_of_range", severity := "error"
               message := "PriorityLevel must be between 1 and 5"
               entity := "client", entityId := rowGet row "ClientID"
               field := some "PriorityLevel", fixable := some true
               suggestion := some "Set PriorityLevel to a value between 1 and 5" }]
          else []
      else []
    let durationDiags : List ValidationResult :=
      if entityType = "tasks" ∧ jsTruthyO (rowGet row "Duration") then
        match jsParseInt (optStr (rowGet row "Duration")) with
        | none =>
          [{ id := "duration-range-" ++ toString index
             type := "out_of_range", severity := "error"
             message := "Duration must be at least 1"
             entity := "task", entityId := rowGet row "TaskID"
             field := some "Duration", fixable := some true
             suggestion := some "Set Duration to a value of 1 or greater" }]
        | some duration =>
          if duration < 1 then
            [{ id := "duration-range-" ++ toString index
               type := "out_of_range", severity := "error"
               message := "Duration must be at least 1"
               entity := "task", entityId := rowGet row "TaskID"
               field := some "Duration", fixable := some true
               suggestion := some "Set Duration to a value of 1 or greater" }]
          else []
      else []
    let loadDiags : List ValidationResult :=
      if entityType = "workers" ∧ jsTruthyO (rowGet row "MaxLoadPerPhase") then
        match jsParseInt (optStr (rowGet row "MaxLoadPerPhase")) with
        | none =>
          [{ id := "load-range-" ++ toString index
             type := "out_of_range", severity := "error"
             message := "MaxLoadPerPhase must be at least 1"
             entity := "worker", entityId := rowGet row "WorkerID"
             field := some "MaxLoadPerPhase", fixable := some true
             suggestion := some "Set MaxLoadPerPhase to a value of 1 or greater" }]
        | some load =>
          if load < 1 then
            [{ id := "load-range-" ++ toString index
               type := "out_of_range", severity := "error"
               message := "MaxLoadPerPhase must be at least 1"
               entity := "worker", entityId := rowGet row "WorkerID"
               field := some "MaxLoadPerPhase", fixable := some true
               suggestion := some "Set MaxLoadPerPhase to a value of 1 or greater" }]
          else []
      else []
    priorityDiags ++ durationDiags ++ loadDiags)

/-- Rule 5, `validationRules.brokenJSON`: for clients, a truthy
`AttributesJSON` must `JSON.parse`. -/
def brokenJSON (data : List Row) (entityType : String) : List ValidationResult :=
  (data.enum).flatMap (fun (p : Nat × Row) =>
    let index := p.1
    let row := p.2
    if entityType = "clients" ∧ jsTruthyO (rowGet row "AttributesJSON") then
      match jsonParse (optStr (rowGet row "AttributesJSON")) with
      | some _ => []
      | none =>
        [{ id := "broken-json-" ++ toString index
           type := "broken_json", severity := "error"
           message := "Invalid JSON in AttributesJSON"
           entity := "client", entityId := rowGet row "ClientID"
           field := some "AttributesJSON", fixable := some true
           suggestion := some "Fix JSON syntax or use \x7b\x7d for empty attributes" }]
    else [])

/-! ## Cross-reference analyzer -/

/-- The `Set` of task identifiers built by `unknownReferences`
(`new Set(context.tasks.map(task => task.TaskID))`); an absent `TaskID`
contributes `undefined` to the set. -/
def taskIdSet (tasks : List Row) : List (Option String) :=
  tasks.map (fun t => rowGet t "TaskID")

/-- The diagnostics `unknownReferences` pushes for one client: one per
occurrence of a truthy trimmed entry of `RequestedTaskIDs` that is not in
the task-id set. -/
def clientUnknownDiags (taskIds : List (Option String)) (client : Row) : List ValidationResult :=
  match rowGet client "RequestedTaskIDs" with
  | none => []
  | some s =>
    if jsTruthy s then
      ((jsSplit ',' s).map jsTrim).flatMap (fun taskId =>
        if jsTruthy taskId ∧ ¬ (some taskId) ∈ taskIds then
          [{ id := "unknown-task-" ++ optStr (rowGet client "ClientID") ++ "-" ++ taskId
             type := "unknown_reference", severity := "error"
             message := "Client requests unknown task: " ++ taskId
             entity := "client", entityId := rowGet client "ClientID"
             field := some "RequestedTaskIDs", fixable := some true
             suggestion := some ("Remove " ++ taskId ++ " from RequestedTaskIDs or create task " ++ taskId) }]
        else [])
    else []

/-- Rule 6, `validationRules.unknownReferences`. -/
def unknownReferences (context : ValidationContext) : List ValidationResult :=
  let taskIds := taskIdSet context.tasks
  context.clients.flatMap (clientUnknownDiags taskIds)

/-- `Set.prototype.add`: append if not already present (insertion order). -/
def setAdd (l : List String) (x : String) : List String :=
  if x ∈ l then l else l ++ [x]

/-- The set of worker skill tags built by `skillCoverage`: every entry of
every truthy `Skills` field, trimmed and lower-cased. -/
def workerSkillSet (workers : List Row) : List String :=
  workers.foldl (fun acc worker =>
    match rowGet worker "Skills" with
    | none => acc
    | some s =>
      if jsTruthy s then
        (jsSplit ',' s).foldl (fun acc2 skill => setAdd acc2 (jsLower (jsTrim skill))) acc
      else acc) []

/-- The missing-skill list `skillCoverage` computes for one task against a
skill set. -/
def taskMissingSkills (skills : List String) (task : Row) : List String :=
  match rowGet task "RequiredSkills" with
  | none => []
  | some s =>
    if jsTruthy s then
      ((jsSplit ',' s).map (fun skill => jsLower (jsTrim skill))).filter
        (fun skill => ¬ skill ∈ skills)
    else []

/-- The diagnostics `skillCoverage` pushes for one task against a worker
skill set. -/
def taskSkillDiags (workerSkills : List String) (task : Row) : List ValidationResult :=
  match rowGet task "RequiredSkills" with
  | none => []
  | some s =>
    if jsTruthy s then
      let missingSkills := taskMissingSkills workerSkills task
      if missingSkills.length > 0 then
        [{ id := "missing-skills-" ++ optStr (rowGet task "TaskID")
           type := "skill_coverage", severity := "error"
           message := "No workers have required skills: " ++ String.intercalate ", " missingSkills
           entity := "task", entityId := rowGet task "TaskID"
           field := some "RequiredSkills", fixable := some true
           suggestion := some ("Add workers with skills: " ++ String.intercalate ", " missingSkills ++ " or modify task requirements") }]
      else []
    else []

/-- Rule 7, `validationRules.skillCoverage`: one error per task whose
required skills are not all present (case-insensitively, trimmed) in some
worker's `Skills` list. -/
def skillCoverage (context : ValidationContext) : List ValidationResult :=
  let workerSkills := workerSkillSet context.workers
  context.tasks.flatMap (taskSkillDiags workerSkills)

/-- Rule 8, `validationRules.overloadedWorkers`: a worker whose
`AvailableSlots` parses to an array shorter than its `MaxLoadPerPhase`
(numeric coercion; `NaN` comparisons are false) gets a warning; JSON
failures are swallowed. -/
def overloadedWorkers (context : ValidationContext) : List ValidationResult :=
  context.workers.flatMap (fun worker =>
    match rowGet worker "AvailableSlots" with
    | none => []
    | some raw =>
      if jsTruthy raw then
        match jsonParse raw with
        | none => []
        | some j =>
          match j with
          | .arr slots =>
            let maxLoadRaw := rowGet worker "MaxLoadPerPhase"
            let isOver : Bool :=
              match maxLoadRaw with
              | none => false
              | some ml =>
                match jsNumber ml with
                | none => false
                | some q => JsNum.ltOfInt (slots.length : Int) q
            if isOver then
              [{ id := "overloaded-" ++ optStr (rowGet worker "WorkerID")
                 type := "overloaded_worker", severity := "warning"
                 message := "Worker has fewer available slots (" ++ toString slots.length ++ ") than max load (" ++ optStr maxLoadRaw ++ ")"
                 entity := "worker", entityId := rowGet worker "WorkerID"
                 field := some "AvailableSlots", fixable := some true
                 suggestion := some "Increase AvailableSlots or decrease MaxLoadPerPhase" }]
            else []
          | _ => []
      else [])

/-! ## AI-enhanced validation (`runAIValidation`) and `validateData`

`runAIValidation`'s first pattern evaluates `w.Skills.split(',')` on every
worker with no guard: a worker whose `Skills` field is `undefined` makes
the whole call throw a `TypeError`.  The embedding therefore returns
`Except String _`, where `.error` models a thrown exception. -/

/-- `filter` with a predicate that may throw, evaluating the predicate
left-to-right and propagating the first exception. -/
def jsFilterE (p : Row → Except String Bool) : List Row → Except String (List Row)
  | [] => .ok []
  | x :: xs => do
    let b ← p x
    let rest ← jsFilterE p xs
    pure (if b then x :: rest else rest)

/-- The `high_priority_low_skills` pattern check of `runAIValidation`.
Both filters run before the guard; the second dereferences
`w.Skills` unconditionally. -/
def patternHighPriorityLowSkills (context : ValidationContext) :
    Except String (Option (String × String × String)) := do
  let highPriorityClients := context.clients.filter (fun c =>
    match rowGet c "PriorityLevel" with
    | none => false
    | some s => jsGeNum s 4)
  let lowSkillWorkers ← jsFilterE (fun w =>
    match rowGet w "Skills" with
    | none => .error "TypeError: Cannot read properties of undefined (reading 'split')"
    | some s => .ok ((jsSplit ',' s).length < 2)) context.workers
  -- `lowSkillWorkers.length > context.workers.length * 0.5`: the right side
  -- is the fraction `workers.length / 2`, compared by cross-multiplication.
  if highPriorityClients.length > 0 ∧
      JsNum.gtOfInt (lowSkillWorkers.length : Int) ⟨context.workers.length, 2⟩ then
    pure (some ("warning", "High priority clients but many low-skill workers",
      "Consider adding more skilled workers or training existing ones"))
  else
    pure none

/-- The `task_duration_mismatch` pattern check of `runAIValidation`
(total: its `JSON.parse` is inside `try`). -/
def patternTaskDurationMismatch (context : ValidationContext) :
    Option (String × String × String) :=
  let longTasks := context.tasks.filter (fun t =>
    match rowGet t "Duration" with
    | none => false
    | some s => jsGtNum s 3)
  let shortPhaseWorkers := context.workers.filter (fun w =>
    match rowGet w "AvailableSlots" with
    | none => false
    | some raw =>
      match jsonParse raw with
      | none => false
      | some j =>
        match j with
        | .arr slots => slots.length < 3
        | _ => false)
  if longTasks.length > 0 ∧ shortPhaseWorkers.length > 0 then
    some ("warning", "Long tasks but workers with limited phase availability",
      "Consider adjusting task durations or worker availability")
  else none

/-- Package a fired pattern as the Diagnostic `runAIValidation` pushes. -/
def aiPatternDiag (name : String) : String × String × String → ValidationResult
  | (sev, msg, sug) =>
    { id := "ai-" ++ name
      type := "ai_pattern", severity := sev, message := msg
      entity := "client", suggestion := some sug, fixable := some false }

/-- `runAIValidation`: runs both pattern checks in order and collects the
fired ones. -/
def runAIValidation (context : ValidationContext) : Except String (List ValidationResult) := do
  let r1 ← patternHighPriorityLowSkills context
  let r2 := patternTaskDurationMismatch context
  let out1 : List ValidationResult :=
    match r1 with
    | none => []
    | some t => [aiPatternDiag "high_priority_low_skills" t]
  let out2 : List ValidationResult :=
    match r2 with
    | none => []
    | some t => [aiPatternDiag "task_duration_mismatch" t]
  pure (out1 ++ out2)

/-- `validateData`: the aggregation order of `src/lib/validation.ts` —
missing columns, duplicate ids and malformed lists for each collection,
out-of-range values, broken JSON for clients, the three cross-reference
rules, then the AI patterns. -/
def validateData (context : ValidationContext) : Except String (List ValidationResult) := do
  let core :=
    missingRequiredColumns context.clients "clients" ++
    missingRequiredColumns context.workers "workers" ++
    missingRequiredColumns context.tasks "tasks" ++
    duplicateIDs context.clients "clients" ++
    duplicateIDs context.workers "workers" ++
    duplicateIDs context.tasks "tasks" ++
    malformedLists context.clients "clients" ++
    malformedLists context.workers "workers" ++
    malformedLists context.tasks "tasks" ++
    outOfRangeValues context.clients "clients" ++
    outOfRangeValues context.workers "workers" ++
    outOfRangeValues context.tasks "tasks" ++
    brokenJSON context.clients "clients" ++
    unknownReferences context ++
    skillCoverage context ++
    overloadedWorkers context
  let aiResults ← runAIValidation context
  pure (core ++ aiResults)

/-! ## AI parser (`src/lib/ai-parser.ts`)

`AIParser` is a stateless singleton; its methods are embedded as plain
functions. -/

/-- A JavaScript value stored in a suggestion payload: the source puts both
strings (`'\x7b\x7d'`, `'[1,2,3,4,5]'`) and numbers (`Math.max(1,
Math.min(5, v))`, `1`) into `suggestedValue`, and string concatenation with
a number can occur in the group-load accumulator.  `nan` models `NaN`. -/
inductive JVal where
  | str (s : String)
  | num (q : JsNum)
  | nan
deriving DecidableEq

/-- Rendering a `JVal` when it is written back into a string-valued row
cell (`String(v)`).  Every numeric `suggestedValue` the corrector produces
is provably one of the integers `1` and `5` (see `clampedValue_cases`), for
which the rendering below agrees with JavaScript's `String(n)`. -/
def JVal.toStore : JVal → String
  | .str s => s
  | .num q => if q.den = 1 then toString q.num
      else toString q.num ++ "/" ++ toString q.den
  | .nan => "NaN"

/-- `String(n)` for the numbers that may leak into a string concatenation
(only `0` can, via `maxLoad += worker.MaxLoadPerPhase || 0`). -/
def jsNumToString (q : JsNum) : String :=
  if q.den = 1 then toString q.num else toString q.num ++ "/" ++ toString q.den

/-- The `+=` accumulator for `groupLoads.maxLoad`: JavaScript `+` is
numeric addition between numbers and string concatenation once either side
is a string. -/
def jvalPlusNum (a : JVal) (n : Int) : JVal :=
  match a with
  | .num q => .num ⟨q.num + n * q.den, q.den⟩
  | .str s => .str (s ++ jsNumToString (JsNum.ofInt n))
  | .nan => .nan

/-- `acc + s` for a string `s` (see `jvalPlusNum`). -/
def jvalPlusStr (a : JVal) (s : String) : JVal :=
  match a with
  | .num q => .str (jsNumToString q ++ s)
  | .str t => .str (t ++ s)
  | .nan => .str ("NaN" ++ s)

/-- Numeric coercion of an accumulated `JVal` for a `>` comparison. -/
def jvalNumber : JVal → Option JsNum
  | .num q => some q
  | .str s => jsNumber s
  | .nan => none

/-- The action-specific payload of an `AISuggestion` (`data` in the
source, a plain object whose key names vary with the action). -/
inductive SugData where
  | clientFix (clientId : Option String) (suggestedValue : JVal)
  | workerFix (workerId : Option String) (suggestedValue : JVal)
  | taskFix (taskId : Option String) (suggestedValue : JVal)
  | tasksPair (task1 task2 : Option String)
  | groupLimit (group : String) (suggestedLimit : Int)
deriving DecidableEq

/-- `AISuggestion` from `src/types/index.ts`. -/
structure AISuggestion where
  id : String
  type : String
  message : String
  confidence : JsNum
  action : String
  data : SugData
deriving DecidableEq

/-- `Math.min(a, b)` on exact values. -/
def jsMin (a b : JsNum) : JsNum := if JsNum.lt b a then b else a

/-- `Math.max(a, b)` on exact values. -/
def jsMax (a b : JsNum) : JsNum := if JsNum.lt a b then b else a

/-- The clamp `Math.max(1, Math.min(5, v))` applied to a string field
(`Math.min` coerces with `Number`; a non-numeric string gives `NaN`). -/
def clampPriority (s : String) : JVal :=
  match jsNumber s with
  | none => .nan
  | some q => .num (jsMax ⟨1, 1⟩ (jsMin ⟨5, 1⟩ q))

/-- The `PriorityLevel` clamp correction for one client
(`generateCorrections`, clients loop, first check). -/
def clientPriorityFix (client : Row) : List AISuggestion :=
  match rowGet client "PriorityLevel" with
  | none => []
  | some s =>
    if jsTruthy s ∧ (jsLtNum s 1 ∨ jsGtNum s 5) then
      [{ id := "fix-priority-" ++ optStr (rowGet client "ClientID")
         type := "correction"
         message := "Fix PriorityLevel for " ++ optStr (rowGet client "ClientName")
         confidence := ⟨9, 10⟩
         action := "fix_priority"
         data := .clientFix (rowGet client "ClientID") (clampPriority s) }]
    else []

/-- The `AttributesJSON` repair correction for one client
(`generateCorrections`, clients loop, second check). -/
def clientJsonFix (client : Row) : List AISuggestion :=
  match rowGet client "AttributesJSON" with
  | none => []
  | some s =>
    if jsTruthy s ∧ s ≠ "\x7b\x7d" then
      match jsonParse s with
      | some _ => []
      | none =>
        [{ id := "fix-json-" ++ optStr (rowGet client "ClientID")
           type := "correction"
           message := "Fix JSON syntax for " ++ optStr (rowGet client "ClientName")
           confidence := ⟨8, 10⟩
           action := "fix_json"
           data := .clientFix (rowGet client "ClientID") (.str "\x7b\x7d") }]
    else []

/-- The corrections `generateCorrections` pushes for one client row
(priority clamp, then JSON repair), in source order. -/
def clientCorrections (client : Row) : List AISuggestion :=
  clientPriorityFix client ++ clientJsonFix client

/-- The `AvailableSlots` repair correction for one worker
(`generateCorrections`, workers loop, first check). -/
def workerSlotsFix (worker : Row) : List AISuggestion :=
  match rowGet worker "AvailableSlots" with
  | none => []
  | some s =>
    if jsTruthy s then
      match jsonParse s with
      | some j =>
        match j with
        | .arr _ => []
        | _ =>
          [{ id := "fix-slots-" ++ optStr (rowGet worker "WorkerID")
             type := "correction"
             message := "Fix AvailableSlots format for " ++ optStr (rowGet worker "WorkerName")
             confidence := ⟨9, 10⟩
             action := "fix_slots"
             data := .workerFix (rowGet worker "WorkerID") (.str "[1,2,3,4,5]") }]
      | none =>
        [{ id := "fix-slots-" ++ optStr (rowGet worker "WorkerID")
           type := "correction"
           message := "Fix AvailableSlots JSON for " ++ optStr (rowGet worker "WorkerName")
           confidence := ⟨9, 10⟩
           action := "fix_slots"
           data := .workerFix (rowGet worker "WorkerID") (.str "[1,2,3,4,5]") }]
    else []

/-- The `MaxLoadPerPhase` repair correction for one worker
(`generateCorrections`, workers loop, second check). -/
def workerLoadFix (worker : Row) : List AISuggestion :=
  match rowGet worker "MaxLoadPerPhase" with
  | none => []
  | some s =>
    if jsTruthy s ∧ jsLtNum s 1 then
      [{ id := "fix-load-" ++ optStr (rowGet worker "WorkerID")
         type := "correction"
         message := "Fix MaxLoadPerPhase for " ++ optStr (rowGet worker "WorkerName")
         confidence := ⟨9, 10⟩
         action := "fix_load"
         data := .workerFix (rowGet worker "WorkerID") (.num ⟨1, 1⟩) }]
    else []

/-- The corrections `generateCorrections` pushes for one worker row
(slot-array repair, then load repair). -/
def workerCorrections (worker : Row) : List AISuggestion :=
  workerSlotsFix worker ++ workerLoadFix worker

/-- The `Duration` repair correction for one task
(`generateCorrections`, tasks loop, first check). -/
def taskDurationFix (task : Row) : List AISuggestion :=
  match rowGet task "Duration" with
  | none => []
  | some s =>
    if jsTruthy s ∧ jsLtNum s 1 then
      [{ id := "fix-duration-" ++ optStr (rowGet task "TaskID")
         type := "correction"
         message := "Fix Duration for " ++ optStr (rowGet task "TaskName")
         confidence := ⟨9, 10⟩
         action := "fix_duration"
         data := .taskFix (rowGet task "TaskID") (.num ⟨1, 1⟩) }]
    else []

/-- The `MaxConcurrent` repair correction for one task
(`generateCorrections`, tasks loop, second check). -/
def taskConcurrentFix (task : Row) : List AISuggestion :=
  match rowGet task "MaxConcurrent" with
  | none => []
  | some s =>
    if jsTruthy s ∧ jsLtNum s 1 then
      [{ id := "fix-concurrent-" ++ optStr (rowGet task "TaskID")
         type := "correction"
         message := "Fix MaxConcurrent for " ++ optStr (rowGet task "TaskName")
         confidence := ⟨9, 10⟩
         action := "fix_concurrent"
         data := .taskFix (rowGet task "TaskID") (.num ⟨1, 1⟩) }]
    else []

/-- The corrections `generateCorrections` pushes for one task row
(duration repair, then concurrency repair). -/
def taskCorrections (task : Row) : List AISuggestion :=
  taskDurationFix task ++ taskConcurrentFix task

/-- `AIParser.generateCorrections`: per-entity heuristic fixes, in source
order (clients, then workers, then tasks; per row, each check in the order
written). -/
def generateCorrections (data : ValidationContext) : List AISuggestion :=
  data.clients.flatMap clientCorrections ++
  data.workers.flatMap workerCorrections ++
  data.tasks.flatMap taskCorrections

/-! ## Pattern-based rule recommender (`generateRuleRecommendations`) -/

/-- `Map.prototype.get`. -/
def mapFind (m : List (String × Nat)) (k : String) : Option Nat :=
  match m.find? (fun p => p.1 = k) with
  | none => none
  | some p => some p.2

/-- `Map.prototype.set`: replace in place, or append preserving insertion
order. -/
def mapSet (m : List (String × Nat)) (k : String) (v : Nat) : List (String × Nat) :=
  if (m.find? (fun p => p.1 = k)).isSome then
    m.map (fun p => if p.1 = k then (k, v) else p)
  else m ++ [(k, v)]

/-- `taskPairs.set(pair, (taskPairs.get(pair) || 0) + 1)`. -/
def mapInc (m : List (String × Nat)) (k : String) : List (String × Nat) :=
  mapSet m k ((mapFind m k).getD 0 + 1)

/-- Lexicographic comparison of code-unit sequences (the default
`Array.prototype.sort` string comparator). -/
def charListLt : List Char → List Char → Bool
  | [], [] => false
  | [], _ :: _ => true
  | _ :: _, [] => false
  | c :: cs, d :: ds =>
    if c.toNat < d.toNat then true
    else if d.toNat < c.toNat then false
    else charListLt cs ds

/-- `a < b` for strings under the default sort comparator. -/
def strLtB (a b : String) : Bool := charListLt a.data b.data

/-- `[tasks[i], tasks[j]].sort()` for two strings (default lexicographic
comparator; swaps exactly when the second compares smaller). -/
def jsSortPair (a b : String) : List String :=
  if strLtB b a then [b, a] else [a, b]

/-- The canonical key `[a, b].sort().join('-')`. -/
def pairKey (a b : String) : String :=
  String.intercalate "-" (jsSortPair a b)

/-- All pair keys produced by the double index loop
`for i; for j = i+1` over one client's task list, in loop order. -/
def pairKeysOf : List String → List String
  | [] => []
  | x :: xs => xs.map (fun y => pairKey x y) ++ pairKeysOf xs

/-- One client's split, trimmed, truthy-filtered `RequestedTaskIDs`. -/
def clientTaskList (client : Row) : List String :=
  match rowGet client "RequestedTaskIDs" with
  | none => []
  | some s =>
    if jsTruthy s then ((jsSplit ',' s).map jsTrim).filter jsTruthy else []

/-- The `taskPairs` tally map after scanning all clients. -/
def buildTaskPairs (clients : List Row) : List (String × Nat) :=
  clients.foldl (fun m client => (pairKeysOf (clientTaskList client)).foldl mapInc m) []

/-- The unused `taskGroups` map the source builds before the pair scan
(task id → requesting client ids); it never influences the output but is
embedded for completeness.  Entries of an untrimmed-unfiltered split are
used here, exactly as in the source (`.map(t => t.trim())`, no
`filter(Boolean)`). -/
def buildTaskGroups (clients : List Row) : List (String × List (Option String)) :=
  clients.foldl (fun m client =>
    match rowGet client "RequestedTaskIDs" with
    | none => m
    | some s =>
      if jsTruthy s then
        ((jsSplit ',' s).map jsTrim).foldl (fun m2 task =>
          let cur := ((m2.find? (fun p => p.1 = task)).map (fun p => p.2)).getD []
          if (m2.find? (fun p => p.1 = task)).isSome then
            m2.map (fun p => if p.1 = task then (task, cur ++ [rowGet client "ClientID"]) else p)
          else m2 ++ [(task, [rowGet client "ClientID"])]) m
      else m) []

/-- The per-group accumulator of `groupLoads`. -/
structure GroupLoad where
  totalSlots : Nat
  maxLoad : JVal
deriving DecidableEq

/-- The `groupLoads` map: for every worker with a truthy `WorkerGroup`,
add the decoded `AvailableSlots` length (0 on parse failure or non-array)
and `+=` the raw `MaxLoadPerPhase || 0` (string concatenation semantics
included). -/
def buildGroupLoads (workers : List Row) : List (String × GroupLoad) :=
  workers.foldl (fun m worker =>
    match rowGet worker "WorkerGroup" with
    | none => m
    | some g =>
      if jsTruthy g then
        let cur := ((m.find? (fun p => p.1 = g)).map (fun p => p.2)).getD ⟨0, .num ⟨0, 1⟩⟩
        let slotsAdd : Nat :=
          match rowGet worker "AvailableSlots" with
          | none => 0
          | some raw =>
            match jsonParse raw with
            | some j =>
              match j with
              | .arr slots => slots.length
              | _ => 0
            | none => 0
        let newLoad : JVal :=
          match rowGet worker "MaxLoadPerPhase" with
          | none => jvalPlusNum cur.maxLoad 0
          | some ml => if jsTruthy ml then jvalPlusStr cur.maxLoad ml else jvalPlusNum cur.maxLoad 0
        let nv : GroupLoad := ⟨cur.totalSlots + slotsAdd, newLoad⟩
        if (m.find? (fun p => p.1 = g)).isSome then
          m.map (fun p => if p.1 = g then (g, nv) else p)
        else m ++ [(g, nv)]
      else m) []

/-- `AIParser.generateRuleRecommendations`: co-run suggestions for pair
keys tallied at least twice, then load-limit suggestions for groups whose
accumulated max load exceeds twice their slot total. -/
def generateRuleRecommendations (data : ValidationContext) : List AISuggestion :=
  let _taskGroups := buildTaskGroups data.clients
  let taskPairs := buildTaskPairs data.clients
  let coRunSugs := (taskPairs.filter (fun p => p.2 ≥ 2)).map (fun p =>
    let parts := jsSplit '-' p.1
    let task1 := parts.get? 0
    let task2 := parts.get? 1
    { id := "co-run-rec-" ++ optStr task1 ++ "-" ++ optStr task2
      type := "rule"
      message := "Tasks " ++ optStr task1 ++ " and " ++ optStr task2 ++
        " are frequently requested together. Consider adding a co-run rule."
      confidence := ⟨7, 10⟩
      action := "add_co_run_rule"
      data := .tasksPair task1 task2 })
  let groupLoads := buildGroupLoads data.workers
  let loadSugs := (groupLoads.filter (fun p =>
      match jvalNumber p.2.maxLoad with
      | none => false
      | some q => JsNum.ltOfInt (2 * (p.2.totalSlots : Int)) q)).map (fun p =>
    { id := "load-limit-rec-" ++ p.1
      type := "rule"
      message := p.1 ++ " workers are overloaded. Consider adding a load limit rule."
      confidence := ⟨8, 10⟩
      action := "add_load_limit_rule"
      data := .groupLimit p.1 ((3 * (p.2.totalSlots : Int)) / 2) })
  coRunSugs ++ loadSugs

/-! ## Text-intent rule parser (`parseRuleFromText`) -/

/-- `BusinessRule.parameters` payloads, one shape per rule type produced by
the parser. -/
inductive RuleParams where
  | coRunTasks (tasks : List String)
  | slotGroup (group : String) (maxSlots : Int)
  | phaseWin (taskId : String) (phases : List Int)
  | loadLim (group : String) (maxLoad : Int)
deriving DecidableEq

/-- `BusinessRule` from `src/types/index.ts` (the fields the parser
populates). -/
structure BusinessRule where
  id : String
  type : String
  enabled : Bool
  description : String
  parameters : RuleParams
deriving DecidableEq

/-- `String.prototype.includes`. -/
def strContains (hay sub : String) : Bool := go hay.data
where
  go : List Char → Bool
    | [] => sub.data.isEmpty
    | c :: rest => sub.data.isPrefixOf (c :: rest) || go rest

def isWordChar (c : Char) : Bool :=
  isDigitChar c || ('a' ≤ c && c ≤ 'z') || ('A' ≤ c && c ≤ 'Z') || c = '_'

/-- All matches of `/t(\d+)/g`: at each position, a `t` followed by a
maximal digit run matches; scanning resumes after the match.  Every step
consumes at least one character, so the input length is enough fuel. -/
def taskTokenScanF : Nat → List Char → List String
  | 0, _ => []
  | _, [] => []
  | fuel + 1, c :: cs =>
    let ds := cs.takeWhile isDigitChar
    if c = 't' ∧ ¬ ds.isEmpty then
      (⟨'t' :: ds⟩ : String) :: taskTokenScanF fuel (cs.drop ds.length)
    else taskTokenScanF fuel cs

/-- All matches of `/t(\d+)/g` in a string's characters. -/
def taskTokenScan (l : List Char) : List String := taskTokenScanF l.length l

/-- First match of `/(\w+) <suffix>/`-style patterns: the leftmost maximal
word-character run that is immediately followed by the literal suffix.
(The greedy `\w+` cannot backtrack to a shorter run here because the
literal begins with a non-word character.) -/
def wordBeforeScan (suffix : List Char) (l : List Char) : Option String :=
  match l with
  | [] => none
  | c :: cs =>
    let run := (c :: cs).takeWhile isWordChar
    if ¬ run.isEmpty ∧ suffix.isPrefixOf ((c :: cs).drop run.length) then
      some ⟨run⟩
    else wordBeforeScan suffix cs

/-- First match of `/(\d+) <suffix>/` (see `wordBeforeScan`). -/
def digitsBeforeScan (suffix : List Char) (l : List Char) : Option Nat :=
  match l with
  | [] => none
  | c :: cs =>
    let run := (c :: cs).takeWhile isDigitChar
    if ¬ run.isEmpty ∧ suffix.isPrefixOf ((c :: cs).drop run.length) then
      some (digitsVal run)
    else digitsBeforeScan suffix cs

/-- `" (\d+)-(\d+)"`: a space, a digit run, a dash, a digit run. -/
def rangeAfterSpace (l : List Char) : Option (Nat × Nat) :=
  match l with
  | ' ' :: r =>
    let d1 := r.takeWhile isDigitChar
    if d1.isEmpty then none else
    match r.drop d1.length with
    | '-' :: r2 =>
      let d2 := r2.takeWhile isDigitChar
      if d2.isEmpty then none else some (digitsVal d1, digitsVal d2)
    | _ => none
  | _ => none

/-- First match of `/phases? (\d+)-(\d+)/`: at each position the literal
`phase`, a greedy optional `s`, then a spaced digit range. -/
def phaseRangeScan (l : List Char) : Option (Nat × Nat) :=
  match l with
  | [] => none
  | _ :: cs =>
    let here : Option (Nat × Nat) :=
      if ("phase".data).isPrefixOf l then
        let rest := l.drop 5
        match rest with
        | 's' :: r =>
          match rangeAfterSpace r with
          | some x => some x
          | none => rangeAfterSpace rest
        | _ => rangeAfterSpace rest
      else none
    match here with
    | some x => some x
    | none => phaseRangeScan cs

/-- `AIParser.parseRuleFromText`.  The source stamps rule ids with
`Date.now()`; the embedding takes the stamp as the argument `now`.  The
intents are tried in source order (co-run, slot restriction, phase window,
load limit) and a branch whose extraction fails falls through to the next;
the explicit no-match result is `none` (`null`). -/
def parseRuleFromText (now : Nat) (text : String) : Option BusinessRule :=
  let normalizedText := jsLower text
  let nd := normalizedText.data
  let coRun : Option BusinessRule :=
    if strContains normalizedText "run together" ∨ strContains normalizedText "must run" then
      let taskMatches := taskTokenScan nd
      if taskMatches.length ≥ 2 then
        some { id := "co-run-" ++ toString now, type := "coRun", enabled := true
               description := text, parameters := .coRunTasks (taskMatches.map jsUpper) }
      else none
    else none
  match coRun with
  | some r => some r
  | none =>
  let slotRestriction : Option BusinessRule :=
    if strContains normalizedText "limit" ∧ strContains normalizedText "slots" then
      match wordBeforeScan (" workers".data) nd, digitsBeforeScan (" slots".data) nd with
      | some group, some maxSlots =>
        some { id := "slot-restriction-" ++ toString now, type := "slotRestriction"
               enabled := true, description := text
               parameters := .slotGroup group (maxSlots : Int) }
      | _, _ => none
    else none
  match slotRestriction with
  | some r => some r
  | none =>
  let phaseWindow : Option BusinessRule :=
    if strContains normalizedText "only run" ∧ strContains normalizedText "phase" then
      match (taskTokenScan nd).head?, phaseRangeScan nd with
      | some token, some range =>
        some { id := "phase-window-" ++ toString now, type := "phaseWindow"
               enabled := true, description := text
               parameters := .phaseWin (jsUpper token) [(range.1 : Int), (range.2 : Int)] }
      | _, _ => none
    else none
  match phaseWindow with
  | some r => some r
  | none =>
  if strContains normalizedText "load" ∧ strContains normalizedText "limit" then
    match wordBeforeScan (" workers".data) nd, digitsBeforeScan (" per phase".data) nd with
    | some group, some maxLoad =>
      some { id := "load-limit-" ++ toString now, type := "loadLimit"
             enabled := true, description := text
             parameters := .loadLim group (maxLoad : Int) }
    | _, _ => none
  else none

/-! ## Applying corrections (`DataStore.updateClient`/`updateWorker`/
`updateTask` and `ValidationPanel.handleApplySuggestion`) -/

/-- `state.xs.map(x => x.IdField === id ? {...x, field: v} : x)`. -/
def updateRows (idField : String) (id : Option String) (field : String)
    (v : String) (rows : List Row) : List Row :=
  rows.map (fun r => if rowGet r idField = id then rowSet r field v else r)

/-- `handleApplySuggestion`: route on the action tag and write the
suggested value into the targeted entity's field.  (The payload
constructors produced by `generateCorrections` always carry the id key the
handler reads for that action.) -/
def handleApplySuggestion (ctx : ValidationContext) (s : AISuggestion) : ValidationContext :=
  if s.action = "fix_priority" then
    match s.data with
    | .clientFix cid v => { ctx with clients := updateRows "ClientID" cid "PriorityLevel" v.toStore ctx.clients }
    | _ => ctx
  else if s.action = "fix_json" then
    match s.data with
    | .clientFix cid v => { ctx with clients := updateRows "ClientID" cid "AttributesJSON" v.toStore ctx.clients }
    | _ => ctx
  else if s.action = "fix_slots" then
    match s.data with
    | .workerFix wid v => { ctx with workers := updateRows "WorkerID" wid "AvailableSlots" v.toStore ctx.workers }
    | _ => ctx
  else if s.action = "fix_load" then
    match s.data with
    | .workerFix wid v => { ctx with workers := updateRows "WorkerID" wid "MaxLoadPerPhase" v.toStore ctx.workers }
    | _ => ctx
  else if s.action = "fix_duration" then
    match s.data with
    | .taskFix tid v => { ctx with tasks := updateRows "TaskID" tid "Duration" v.toStore ctx.tasks }
    | _ => ctx
  else if s.action = "fix_concurrent" then
    match s.data with
    | .taskFix tid v => { ctx with tasks := updateRows "TaskID" tid "MaxConcurrent" v.toStore ctx.tasks }
    | _ => ctx
  else ctx

/-- Applying every suggestion of a list in order. -/
def applyAllSuggestions (ctx : ValidationContext) (l : List AISuggestion) : ValidationContext :=
  l.foldl handleApplySuggestion ctx

/-! ## State-threaded wrappers (for the frame condition)

The source functions read the snapshot at several program points and
mutate only function-local accumulator arrays (`results.push`,
`suggestions.push`), never the snapshot.  The wrappers below re-trace the
reads through a state monad whose state is the snapshot; proving that the
final state equals the initial one records that no read–compute step
writes the snapshot. -/

/-- `validateData` threaded through `StateM`, reading the snapshot at each
of the source's access points. -/
def validateDataSt : StateM ValidationContext (Except String (List ValidationResult)) := do
  let r01 := missingRequiredColumns (← get).clients "clients"
  let r02 := missingRequiredColumns (← get).workers "workers"
  let r03 := missingRequiredColumns (← get).tasks "tasks"
  let r04 := duplicateIDs (← get).clients "clients"
  let r05 := duplicateIDs (← get).workers "workers"
  let r06 := duplicateIDs (← get).tasks "tasks"
  let r07 := malformedLists (← get).clients "clients"
  let r08 := malformedLists (← get).workers "workers"
  let r09 := malformedLists (← get).tasks "tasks"
  let r10 := outOfRangeValues (← get).clients "clients"
  let r11 := outOfRangeValues (← get).workers "workers"
  let r12 := outOfRangeValues (← get).tasks "tasks"
  let r13 := brokenJSON (← get).clients "clients"
  let r14 := unknownReferences (← get)
  let r15 := skillCoverage (← get)
  let r16 := overloadedWorkers (← get)
  let ai ← runAIValidation <$> get
  match ai with
  | .error e => pure (.error e)
  | .ok l =>
    pure (.ok (r01 ++ r02 ++ r03 ++ r04 ++ r05 ++ r06 ++ r07 ++ r08 ++ r09 ++
      r10 ++ r11 ++ r12 ++ r13 ++ r14 ++ r15 ++ r16 ++ l))

/-- `generateCorrections` threaded through `StateM`. -/
def generateCorrectionsSt : StateM ValidationContext (List AISuggestion) := do
  let cs := (← get).clients.flatMap clientCorrections
  let ws := (← get).workers.flatMap workerCorrections
  let ts := (← get).tasks.flatMap taskCorrections
  pure (cs ++ ws ++ ts)

/-- `generateRuleRecommendations` threaded through `StateM`. -/
def generateRuleRecommendationsSt : StateM ValidationContext (List AISuggestion) := do
  let ctx1 ← get
  let _taskGroups := buildTaskGroups ctx1.clients
  let taskPairs := buildTaskPairs (← get).clients
  let groupLoads := buildGroupLoads (← get).workers
  let coRunSugs := (taskPairs.filter (fun p => p.2 ≥ 2)).map (fun p =>
    let parts := jsSplit '-' p.1
    let task1 := parts.get? 0
    let task2 := parts.get? 1
    ({ id := "co-run-rec-" ++ optStr task1 ++ "-" ++ optStr task2
       type := "rule"
       message := "Tasks " ++ optStr task1 ++ " and " ++ optStr task2 ++
         " are frequently requested together. Consider adding a co-run rule."
       confidence := ⟨7, 10⟩
       action := "add_co_run_rule"
       data := .tasksPair task1 task2 } : AISuggestion))
  let loadSugs := (groupLoads.filter (fun p =>
      match jvalNumber p.2.maxLoad with
      | none => false
      | some q => JsNum.ltOfInt (2 * (p.2.totalSlots : Int)) q)).map (fun p =>
    ({ id := "load-limit-rec-" ++ p.1
       type := "rule"
       message := p.1 ++ " workers are overloaded. Consider adding a load limit rule."
       confidence := ⟨8, 10⟩
       action := "add_load_limit_rule"
       data := .groupLimit p.1 ((3 * (p.2.totalSlots : Int)) / 2) } : AISuggestion))
  pure (coRunSugs ++ loadSugs)

/-! ## The end-to-end scenario snapshot (spec §8) -/

/-- The snapshot of the spec's end-to-end scenario, with the keys the
scenario writes and no others (absent keys model absent fields). -/
def scenarioSnapshot : ValidationContext :=
  { clients := [[("ClientID", "C1"), ("PriorityLevel", "7"),
                 ("RequestedTaskIDs", "T1,T9"), ("AttributesJSON", "not-json")]]
    workers := []
    tasks := [[("TaskID", "T1"), ("Duration", "2"), ("RequiredSkills", "sql")]] }

/-! ## Claim theorems -/

/-- C8: the engine never mutates its input snapshot.  Each of
`validateData`, `generateCorrections` and `generateRuleRecommendations`,
re-traced through a state monad whose state is the snapshot, leaves the
final state equal to the initial snapshot while computing the same result
as its pure embedding (the source mutates only function-local accumulator
arrays, so every step is a read). -/
theorem engine_preserves_snapshot : ∀ ctx : ValidationContext,
    (validateDataSt.run ctx).2 = ctx ∧
    (validateDataSt.run ctx).1 = validateData ctx ∧
    (generateCorrectionsSt.run ctx).2 = ctx ∧
    (generateCorrectionsSt.run ctx).1 = generateCorrections ctx ∧
    (generateRuleRecommendationsSt.run ctx).2 = ctx ∧
    (generateRuleRecommendationsSt.run ctx).1 = generateRuleRecommendations ctx := by
  intro ctx
  refine ⟨?_, ?_, rfl, rfl, rfl, rfl⟩
  · simp only [validateDataSt, StateT.run, bind, StateT.bind, get, getThe,
      MonadStateOf.get, StateT.get, pure, StateT.pure, Functor.map, StateT.map, Id.run]
    rcases runAIValidation ctx with e | l <;> rfl
  · simp only [validateDataSt, validateData, StateT.run, bind, StateT.bind, get, getThe,
      MonadStateOf.get, StateT.get, pure, StateT.pure, Functor.map, StateT.map, Id.run,
      Except.pure]
    rcases runAIValidation ctx with e | l <;> rfl

/-- C9 (counterexample): on the spec's end-to-end scenario snapshot the
diagnostic list is not exactly the four listed diagnostics — it has 17
entries, 13 of which are missing-required-column errors (two client
columns, all seven worker columns, four task columns), a type absent from
the claimed list. -/
theorem scenario_has_missing_column_errors :
    (validateData scenarioSnapshot).map List.length = Except.ok 17 ∧
    (validateData scenarioSnapshot).map
      (fun l => (l.filter (fun d => d.type = "missing_required_column")).length) =
      Except.ok 13 := by
  exact ⟨rfl, rfl⟩

/-- C9 (amended): on the scenario snapshot, besides the thirteen
missing-required-column errors, `validateData` produces exactly the four
claimed diagnostics (out-of-range PriorityLevel, broken JSON, unknown
reference `T9`, skill-coverage gap for `sql`), every produced diagnostic
has severity `error`, and the correction suggester proposes exactly
`PriorityLevel → 5` and `AttributesJSON → "\x7b\x7d"`. -/
theorem scenario_diagnostics_and_corrections :
    (validateData scenarioSnapshot).map
      (fun l => l.filter (fun d => ¬ d.type = "missing_required_column")) = Except.ok
      [{ id := "priority-range-0", type := "out_of_range", severity := "error"
         message := "PriorityLevel must be between 1 and 5"
         entity := "client", entityId := some "C1", field := some "PriorityLevel"
         suggestion := some "Set PriorityLevel to a value between 1 and 5", fixable := some true },
       { id := "broken-json-0", type := "broken_json", severity := "error"
         message := "Invalid JSON in AttributesJSON"
         entity := "client", entityId := some "C1", field := some "AttributesJSON"
         suggestion := some "Fix JSON syntax or use \x7b\x7d for empty attributes", fixable := some true },
       { id := "unknown-task-C1-T9", type := "unknown_reference", severity := "error"
         message := "Client requests unknown task: T9"
         entity := "client", entityId := some "C1", field := some "RequestedTaskIDs"
         suggestion := some "Remove T9 from RequestedTaskIDs or create task T9", fixable := some true },
       { id := "missing-skills-T1", type := "skill_coverage", severity := "error"
         message := "No workers have required skills: sql"
         entity := "task", entityId := some "T1", field := some "RequiredSkills"
         suggestion := some "Add workers with skills: sql or modify task requirements", fixable := some true }] ∧
    (validateData scenarioSnapshot).map
      (fun l => l.all (fun d => d.severity = "error")) = Except.ok true ∧
    generateCorrections scenarioSnapshot =
      [{ id := "fix-priority-C1", type := "correction"
         message := "Fix PriorityLevel for undefined"
         confidence := ⟨9, 10⟩, action := "fix_priority"
         data := .clientFix (some "C1") (.num ⟨5, 1⟩) },
       { id := "fix-json-C1", type := "correction"
         message := "Fix JSON syntax for undefined"
         confidence := ⟨8, 10⟩, action := "fix_json"
         data := .clientFix (some "C1") (.str "\x7b\x7d") }] := by
  exact ⟨rfl, rfl, rfl⟩

/-- Cancel a common prefix of string concatenations. -/
lemma string_append_left_cancel {p a b : String} (h : p ++ a = p ++ b) : a = b := by
  have hd : p.data ++ a.data = p.data ++ b.data := congrArg String.data h
  exact congrArg String.mk (List.append_cancel_left hd)

/-- With no workers, neither AI pattern can fire, and nothing is
dereferenced, so `runAIValidation` returns an empty list. -/
lemma runAIValidation_workers_nil (cs ts : List Row) :
    runAIValidation ⟨cs, [], ts⟩ = .ok [] := by
  simp [runAIValidation, patternHighPriorityLowSkills, patternTaskDurationMismatch,
    jsFilterE, JsNum.gtOfInt, bind, Except.bind, pure, Except.pure]

/-- The seven missing-column errors for an empty workers collection. -/
def workersMissingColumnErrors : List ValidationResult :=
  ["WorkerID", "WorkerName", "Skills", "AvailableSlots", "MaxLoadPerPhase",
   "WorkerGroup", "QualificationLevel"].map (fun col =>
    { id := "missing-" ++ col
      type := "missing_required_column"
      severity := "error"
      message := "Missing required column: " ++ col
      entity := "workers"
      field := some col
      fixable := some false })

/-- C10: `missingRequiredColumns` treats a column as present exactly when
some row defines it, so an empty collection misses every required column;
in particular `validateData` on a snapshot with no workers reports, right
after the client missing-column errors, one missing-column error for each
of the seven required worker columns. -/
theorem missing_columns_empty_workers :
    (∀ (data : List Row) (et col : String), col ∈ requiredColumns et →
      ((missingRequiredColumns data et).any (fun d => d.id = "missing-" ++ col) ↔
        ¬ data.any (fun row => (rowGet row col).isSome))) ∧
    missingRequiredColumns [] "workers" = workersMissingColumnErrors ∧
    ∀ cs ts : List Row, ∃ rest : List ValidationResult,
      validateData ⟨cs, [], ts⟩ =
        .ok (missingRequiredColumns cs "clients" ++ (workersMissingColumnErrors ++ rest)) := by
  refine ⟨?_, rfl, ?_⟩
  · intro data et col hcol
    simp only [missingRequiredColumns, List.any_eq_true, List.mem_map, List.mem_filter]
    constructor
    · rintro ⟨d, ⟨col', ⟨_hmem, hpred⟩, rfl⟩, hid⟩
      have : col' = col := string_append_left_cancel (by simpa using hid)
      subst this
      simpa using hpred
    · intro hno
      exact ⟨_, ⟨col, ⟨hcol, by simpa using hno⟩, rfl⟩, by simp⟩
  · intro cs ts
    refine ⟨missingRequiredColumns ts "tasks" ++ duplicateIDs cs "clients" ++
      duplicateIDs ([] : List Row) "workers" ++ duplicateIDs ts "tasks" ++
      malformedLists cs "clients" ++ malformedLists ([] : List Row) "workers" ++
      malformedLists ts "tasks" ++ outOfRangeValues cs "clients" ++
      outOfRangeValues ([] : List Row) "workers" ++ outOfRangeValues ts "tasks" ++
      brokenJSON cs "clients" ++ unknownReferences ⟨cs, [], ts⟩ ++
      skillCoverage ⟨cs, [], ts⟩ ++ overloadedWorkers ⟨cs, [], ts⟩, ?_⟩
    have h7 : missingRequiredColumns ([] : List Row) "workers" = workersMissingColumnErrors := rfl
    simp [validateData, runAIValidation_workers_nil, bind, Except.bind, pure, Except.pure,
      h7, List.append_assoc]

/-- C10 (witness): instantiating the characterization at the `Skills`
column of an empty worker collection and the snapshot part at the empty
snapshot. -/
theorem missing_columns_empty_workers_witness :
    (((missingRequiredColumns [] "workers").any
        (fun d => d.id = "missing-" ++ "Skills")) ↔
      ¬ ([] : List Row).any (fun row => (rowGet row "Skills").isSome)) ∧
    ∃ rest, validateData ⟨[], [], []⟩ =
      .ok (missingRequiredColumns [] "clients" ++ (workersMissingColumnErrors ++ rest)) :=
  ⟨missing_columns_empty_workers.1 [] "workers" "Skills" (by decide),
   missing_columns_empty_workers.2.2 [] []⟩

/-- The trimmed entries of a client's `RequestedTaskIDs` (empty when the
field is absent or falsy), as both the unknown-reference rule and this
claim's counting read them. -/
def requestedEntries (c : Row) : List String :=
  match rowGet c "RequestedTaskIDs" with
  | none => []
  | some s => if jsTruthy s then (jsSplit ',' s).map jsTrim else []

lemma countP_flatMap {α β} (p : β → Bool) (f : α → List β) :
    ∀ l : List α, List.countP p (l.flatMap f) = (l.map (fun a => List.countP p (f a))).sum := by
  intro l
  induction l with
  | nil => rfl
  | cons a rest ih =>
    simp only [List.flatMap_cons, List.countP_append, List.map_cons, List.sum_cons, ih]

/-- Unknown-task diagnostics of one client, counted per occurrence of a
missing id among the trimmed entries. -/
lemma clientUnknown_count (taskIds : List (Option String)) (c : Row) (tid : String)
    (htid : tid ≠ "") :
    (clientUnknownDiags taskIds c).countP
      (fun d => d.message = "Client requests unknown task: " ++ tid) =
      if (some tid) ∈ taskIds then 0 else (requestedEntries c).count tid := by
  unfold clientUnknownDiags requestedEntries
  cases hreq : rowGet c "RequestedTaskIDs" with
  | none => simp
  | some s =>
    by_cases hs : jsTruthy s
    · simp only [hs, if_true]
      generalize (jsSplit ',' s).map jsTrim = entries
      induction entries with
      | nil => simp
      | cons e rest ih =>
        rw [List.flatMap_cons, List.countP_append, ih]
        by_cases he : e = tid
        · subst he
          by_cases hmem : (some e) ∈ taskIds
          · simp [hmem, htid]
          · simp only [hmem, if_false]
            have : jsTruthy e = true := by simpa [jsTruthy] using htid
            simp [this, hmem, List.count_cons, List.countP_cons, Nat.add_comm]
        · by_cases hg : jsTruthy e ∧ ¬ (some e) ∈ taskIds
          · have hne : ¬ ("Client requests unknown task: " ++ e =
                "Client requests unknown task: " ++ tid) := by
              intro hcontr
              exact he (string_append_left_cancel hcontr)
            simp only [hg, if_true]
            simp [List.countP_cons, hne, List.count_cons, he]
          · simp only [hg, if_false]
            simp [List.count_cons, he]
    · simp [hs]

/-- C2 (amended): `unknownReferences` runs the per-client scan over all
clients; for one client it emits exactly one error diagnostic *per
occurrence* of a missing id among the trimmed `RequestedTaskIDs` entries
(an id repeated in the list yields one diagnostic per occurrence), no
diagnostic for entries that resolve to an existing `TaskID`, and every
emitted diagnostic is a fixable error attributed to that client. -/
theorem unknown_references_per_occurrence :
    (∀ ctx, unknownReferences ctx =
      ctx.clients.flatMap (clientUnknownDiags (taskIdSet ctx.tasks))) ∧
    (∀ (tasks : List Row) (c : Row) (tid : String), tid ≠ "" →
      (clientUnknownDiags (taskIdSet tasks) c).countP
        (fun d => d.message = "Client requests unknown task: " ++ tid) =
        if (some tid) ∈ taskIdSet tasks then 0 else (requestedEntries c).count tid) ∧
    (∀ (taskIds : List (Option String)) (c : Row) d, d ∈ clientUnknownDiags taskIds c →
      d.type = "unknown_reference" ∧ d.severity = "error" ∧
      d.entityId = rowGet c "ClientID" ∧ d.field = some "RequestedTaskIDs" ∧
      d.fixable = some true) := by
  refine ⟨fun _ => rfl, fun tasks c tid h => clientUnknown_count _ c tid h, ?_⟩
  intro taskIds c d hd
  unfold clientUnknownDiags at hd
  cases hreq : rowGet c "RequestedTaskIDs" with
  | none => rw [hreq] at hd; simp at hd
  | some s =>
    rw [hreq] at hd
    by_cases hs : jsTruthy s
    · simp only [hs, if_true] at hd
      rcases List.mem_flatMap.mp hd with ⟨e, _hme, hin⟩
      by_cases hg : jsTruthy e = true ∧ ¬ (some e) ∈ taskIds
      · rw [if_pos hg] at hin
        rcases List.mem_singleton.mp hin with rfl
        exact ⟨rfl, rfl, rfl, rfl, rfl⟩
      · rw [if_neg hg] at hin
        simp at hin
    · simp only [hs, if_false] at hd
      simp at hd

/-- C2 (witness): the client requesting `T9` twice against a task list
containing only `T1` gets two diagnostics; `T1` entries get none. -/
theorem unknown_references_per_occurrence_witness :
    (clientUnknownDiags (taskIdSet [[("TaskID", "T1")]])
        [("ClientID", "C1"), ("RequestedTaskIDs", "T1,T9,T9")]).countP
      (fun d => d.message = "Client requests unknown task: " ++ "T9") =
      if (some "T9") ∈ taskIdSet [[("TaskID", "T1")]] then 0
      else (requestedEntries [("ClientID", "C1"), ("RequestedTaskIDs", "T1,T9,T9")]).count "T9" :=
  unknown_references_per_occurrence.2.1 [[("TaskID", "T1")]]
    [("ClientID", "C1"), ("RequestedTaskIDs", "T1,T9,T9")] "T9" (by decide)

/-- C2 (counterexample): a single client whose `RequestedTaskIDs` is
`"T9,T9"` with no tasks receives two unknown-reference diagnostics for the
single (client, missing id) pair — the check reports per occurrence, not
per pair. -/
theorem unknown_references_not_per_pair :
    (unknownReferences ⟨[[("ClientID", "C1"), ("RequestedTaskIDs", "T9,T9")]], [], []⟩).countP
      (fun d => d.message = "Client requests unknown task: T9") = 2 := by
  rfl

/-- Well-formedness of a parsed `BusinessRule` (spec §4.4): the enabled
flag is set, the description echoes the sentence, and the parameters
match the rule type (at least two task tokens for a co-run rule, a group
and a count for slot/load rules, a task and a two-element phase range for
a phase window). -/
def ruleWellFormed (r : BusinessRule) (text : String) : Prop :=
  r.enabled = true ∧ r.description = text ∧
  ((r.type = "coRun" ∧ ∃ ts, r.parameters = .coRunTasks ts ∧ 2 ≤ ts.length) ∨
   (r.type = "slotRestriction" ∧ ∃ g n, r.parameters = .slotGroup g n) ∨
   (r.type = "phaseWindow" ∧ ∃ t a b, r.parameters = .phaseWin t [a, b]) ∨
   (r.type = "loadLimit" ∧ ∃ g n, r.parameters = .loadLim g n))

lemma jsFilterE_ok {p : Row → Except String Bool} :
    ∀ l : List Row, (∀ x ∈ l, ∃ b, p x = .ok b) → ∃ r, jsFilterE p l = .ok r := by
  intro l
  induction l with
  | nil => exact fun _ => ⟨[], rfl⟩
  | cons x xs ih =>
    intro h
    obtain ⟨b, hb⟩ := h x (by simp)
    obtain ⟨r, hr⟩ := ih (fun y hy => h y (by simp [hy]))
    simp only [jsFilterE, hb, hr, bind, Except.bind]
    exact ⟨_, rfl⟩

/-- When every worker defines `Skills`, the unguarded
`w.Skills.split(',')` of the first AI pattern cannot throw. -/
lemma runAIValidation_ok (ctx : ValidationContext)
    (h : ∀ w ∈ ctx.workers, (rowGet w "Skills").isSome) :
    ∃ l, runAIValidation ctx = .ok l := by
  have htot : ∀ w ∈ ctx.workers, ∃ b,
      (fun w => match rowGet w "Skills" with
        | none => (.error "TypeError: Cannot read properties of undefined (reading 'split')" :
            Except String Bool)
        | some s => .ok ((jsSplit ',' s).length < 2)) w = .ok b := by
    intro w hw
    rcases hs : rowGet w "Skills" with _ | s
    · exact absurd (hs ▸ h w hw) (by simp)
    · exact ⟨decide ((jsSplit ',' s).length < 2), by simp only [hs]⟩
  obtain ⟨r, hr⟩ := jsFilterE_ok ctx.workers htot
  have hp : ∃ v, patternHighPriorityLowSkills ctx = .ok v := by
    simp only [patternHighPriorityLowSkills, hr, bind, Except.bind]
    by_cases hc : 0 < (List.filter (fun c =>
        match rowGet c "PriorityLevel" with
        | none => false
        | some s => jsGeNum s 4) ctx.clients).length ∧
        JsNum.gtOfInt (r.length : Int) ⟨ctx.workers.length, 2⟩ = true
    · rw [if_pos hc]; exact ⟨_, rfl⟩
    · rw [if_neg hc]; exact ⟨_, rfl⟩
  obtain ⟨v, hv⟩ := hp
  simp only [runAIValidation, hv, bind, Except.bind]
  exact ⟨_, rfl⟩

/-- C7 (amended): the text-intent parser is total — it returns either
`none` or a well-formed `BusinessRule` — and `validateData` returns a
(possibly empty) diagnostic list, never an exception, on every snapshot in
which each worker row defines `Skills` (as the ingestion pipeline
guarantees); each of the eight `validationRules` is a total function by
construction. -/
theorem parser_no_match_and_validators_total :
    (∀ (now : Nat) (text : String) r,
      parseRuleFromText now text = some r → ruleWellFormed r text) ∧
    (∀ ctx : ValidationContext, (∀ w ∈ ctx.workers, (rowGet w "Skills").isSome) →
      ∃ l, validateData ctx = Except.ok l) := by
  constructor
  · intro now text r h
    dsimp only [parseRuleFromText] at h
    split at h
    case _ heq =>
      -- co-run branch returned a rule
      rw [Option.some.injEq] at h
      subst h
      split at heq
      · split at heq
        case isTrue hlen =>
          rw [Option.some.injEq] at heq
          subst heq
          exact ⟨rfl, rfl, Or.inl ⟨rfl, _, rfl, by simpa using hlen⟩⟩
        case isFalse _ => exact absurd heq (by simp)
      · exact absurd heq (by simp)
    case _ =>
      split at h
      case _ heq =>
        rw [Option.some.injEq] at h
        subst h
        split at heq
        · split at heq
          case _ => rw [Option.some.injEq] at heq; subst heq
                    exact ⟨rfl, rfl, Or.inr (Or.inl ⟨rfl, _, _, rfl⟩)⟩
          case _ => exact absurd heq (by simp)
        · exact absurd heq (by simp)
      case _ =>
        split at h
        case _ heq =>
          rw [Option.some.injEq] at h
          subst h
          split at heq
          · split at heq
            case _ => rw [Option.some.injEq] at heq; subst heq
                      exact ⟨rfl, rfl, Or.inr (Or.inr (Or.inl ⟨rfl, _, _, _, rfl⟩))⟩
            case _ => exact absurd heq (by simp)
          · exact absurd heq (by simp)
        case _ =>
          split at h
          · split at h
            case _ => rw [Option.some.injEq] at h; subst h
                      exact ⟨rfl, rfl, Or.inr (Or.inr (Or.inr ⟨rfl, _, _, rfl⟩))⟩
            case _ => exact absurd h (by simp)
          · exact absurd h (by simp)
  · intro ctx h
    obtain ⟨l, hl⟩ := runAIValidation_ok ctx h
    simp only [validateData, hl, bind, Except.bind]
    exact ⟨_, rfl⟩

/-- C7 (witness): the co-run sentence parses to a well-formed rule, and a
snapshot whose single worker defines `Skills` validates to a list. -/
theorem parser_no_match_and_validators_total_witness :
    ruleWellFormed { id := "co-run-0", type := "coRun", enabled := true
                     description := "Tasks T1 and T2 must run together"
                     parameters := .coRunTasks ["T1", "T2"] }
      "Tasks T1 and T2 must run together" ∧
    ∃ l, validateData ⟨[], [[("WorkerID", "W1"), ("Skills", "sql")]], []⟩ = Except.ok l :=
  ⟨parser_no_match_and_validators_total.1 0 "Tasks T1 and T2 must run together"
      { id := "co-run-0", type := "coRun", enabled := true
        description := "Tasks T1 and T2 must run together"
        parameters := .coRunTasks ["T1", "T2"] } (by rfl),
   parser_no_match_and_validators_total.2 ⟨[], [[("WorkerID", "W1"), ("Skills", "sql")]], []⟩
     (by decide)⟩

/-- C7 (counterexample): `validateData` is not exception-free on every
input — a worker row without a `Skills` key makes the first AI pattern's
unguarded `w.Skills.split(',')` throw a `TypeError`, which propagates out
of `validateData`. -/
theorem validateData_throws_on_undefined_skills :
    validateData ⟨[], [[("WorkerID", "W1")]], []⟩ =
      Except.error "TypeError: Cannot read properties of undefined (reading 'split')" := by
  rfl

lemma gtOfInt_iff {q : JsNum} (hden : 0 < q.den) (n : Int) :
    JsNum.gtOfInt n q = true ↔ q.toRat < (n : Rat) := by
  unfold JsNum.gtOfInt JsNum.toRat
  rw [div_lt_iff₀ (by exact_mod_cast hden)]
  rw [decide_eq_true_eq]
  exact_mod_cast Iff.rfl

lemma ltOfInt_iff {q : JsNum} (hden : 0 < q.den) (n : Int) :
    JsNum.ltOfInt n q = true ↔ (n : Rat) < q.toRat := by
  unfold JsNum.ltOfInt JsNum.toRat
  rw [lt_div_iff₀ (by exact_mod_cast hden)]
  rw [decide_eq_true_eq]
  exact_mod_cast Iff.rfl

lemma jsNumberExp_den_pos {m : JsNum} (hm : 0 < m.den) {l : List Char} {q : JsNum}
    (h : jsNumber.jsNumberExp m l = some q) : 0 < q.den := by
  dsimp only [jsNumber.jsNumberExp] at h
  split at h
  · exact absurd h (by simp)
  · split at h
    · injection h with h'
      subst h'
      exact Nat.mul_pos hm (pow_pos (by decide) _)
    · injection h with h'
      subst h'
      exact hm

lemma jsNumber_den_pos {s : String} {q : JsNum} (h : jsNumber s = some q) : 0 < q.den := by
  dsimp only [jsNumber] at h
  split at h
  · injection h with h'; subst h'; decide
  · split at h
    · exact absurd h (by simp)
    · split at h
      · injection h with h'; subst h'
        exact pow_pos (by decide) _
      · exact jsNumberExp_den_pos (pow_pos (by decide) _) h
      · exact jsNumberExp_den_pos (pow_pos (by decide) _) h
      · exact absurd h (by simp)

/-- C4: the correction suggester proposes a `PriorityLevel` correction for
a client with a numeric `PriorityLevel` string exactly when its value lies
outside `[1, 5]`, and the proposed value is the input clamped into
`[1, 5]` (`Math.max(1, Math.min(5, v))`), which is `1` below the range and
`5` above it; `generateCorrections` is the concatenation of these per-row
checks. -/
theorem priority_correction_clamps :
    (∀ data : ValidationContext, generateCorrections data =
      data.clients.flatMap (fun c => clientPriorityFix c ++ clientJsonFix c) ++
      data.workers.flatMap workerCorrections ++ data.tasks.flatMap taskCorrections) ∧
    (∀ (c : Row) (s : String) (q : JsNum),
      rowGet c "PriorityLevel" = some s → s ≠ "" → jsNumber s = some q →
      clientPriorityFix c =
        (if q.toRat < 1 ∨ 5 < q.toRat then
          [{ id := "fix-priority-" ++ optStr (rowGet c "ClientID")
             type := "correction"
             message := "Fix PriorityLevel for " ++ optStr (rowGet c "ClientName")
             confidence := ⟨9, 10⟩
             action := "fix_priority"
             data := .clientFix (rowGet c "ClientID") (.num (jsMax ⟨1, 1⟩ (jsMin ⟨5, 1⟩ q))) }]
        else [])) ∧
    (∀ q : JsNum, 0 < q.den →
      (q.toRat < 1 → jsMax ⟨1, 1⟩ (jsMin ⟨5, 1⟩ q) = ⟨1, 1⟩) ∧
      ((5 : Rat) < q.toRat → jsMax ⟨1, 1⟩ (jsMin ⟨5, 1⟩ q) = ⟨5, 1⟩)) := by
  refine ⟨fun _ => rfl, ?_, ?_⟩
  · intro c s q hP hS hQ
    have hden := jsNumber_den_pos hQ
    unfold clientPriorityFix
    have htr : jsTruthy s = true := by simpa [jsTruthy] using hS
    have h1 : jsLtNum s 1 = true ↔ q.toRat < 1 := by
      unfold jsLtNum
      rw [hQ]
      simpa using gtOfInt_iff hden 1
    have h5 : jsGtNum s 5 = true ↔ (5 : Rat) < q.toRat := by
      unfold jsGtNum
      rw [hQ]
      simpa using ltOfInt_iff hden 5
    have hsv : clampPriority s = .num (jsMax ⟨1, 1⟩ (jsMin ⟨5, 1⟩ q)) := by
      unfold clampPriority
      rw [hQ]
    simp only [hP]
    by_cases hc : q.toRat < 1 ∨ 5 < q.toRat
    · rw [if_pos hc, if_pos ⟨htr, by rw [h1, h5]; exact hc⟩, hsv]
    · rw [if_neg hc, if_neg ?_]
      intro hcontr
      exact hc (by rw [← h1, ← h5]; exact hcontr.2)
  · intro q hden
    have hpos : (0 : Rat) < (q.den : Rat) := by exact_mod_cast hden
    constructor
    · intro hlt
      have h0 : (q.num : Rat) < (q.den : Rat) := by
        have h1' := (div_lt_iff₀ hpos).mp (by simpa [JsNum.toRat] using hlt)
        simpa using h1'
      have hn : q.num < (q.den : Int) := by exact_mod_cast h0
      have hmin : jsMin ⟨5, 1⟩ q = q := by
        unfold jsMin JsNum.lt
        rw [if_pos]
        simp only [decide_eq_true_eq]
        omega
      rw [hmin]
      unfold jsMax JsNum.lt
      rw [if_neg]
      simp only [decide_eq_true_eq]
      omega
    · intro hgt
      have h0 : (5 : Rat) * (q.den : Rat) < (q.num : Rat) := by
        have h1' := (lt_div_iff₀ hpos).mp (by simpa [JsNum.toRat] using hgt)
        simpa using h1'
      have hn : 5 * (q.den : Int) < q.num := by exact_mod_cast h0
      have hmin : jsMin ⟨5, 1⟩ q = ⟨5, 1⟩ := by
        unfold jsMin JsNum.lt
        rw [if_neg]
        simp only [decide_eq_true_eq]
        omega
      rw [hmin]
      unfold jsMax JsNum.lt
      rw [if_pos]
      simp only [decide_eq_true_eq]
      omega

/-- C4 (witness): priority `"0"` is corrected to `1`, `"9"` to `5`, and
`"3"` yields no suggestion. -/
theorem priority_correction_clamps_witness :
    clientPriorityFix [("ClientID", "C1"), ("PriorityLevel", "0")] =
      [{ id := "fix-priority-C1", type := "correction"
         message := "Fix PriorityLevel for undefined", confidence := ⟨9, 10⟩
         action := "fix_priority", data := .clientFix (some "C1") (.num ⟨1, 1⟩) }] ∧
    clientPriorityFix [("ClientID", "C2"), ("PriorityLevel", "9")] =
      [{ id := "fix-priority-C2", type := "correction"
         message := "Fix PriorityLevel for undefined", confidence := ⟨9, 10⟩
         action := "fix_priority", data := .clientFix (some "C2") (.num ⟨5, 1⟩) }] ∧
    clientPriorityFix [("ClientID", "C3"), ("PriorityLevel", "3")] = [] := by
  refine ⟨?_, ?_, ?_⟩
  · have h := priority_correction_clamps.2.1 [("ClientID", "C1"), ("PriorityLevel", "0")]
      "0" ⟨0, 1⟩ rfl (by decide) (by rfl)
    have hc := (priority_correction_clamps.2.2 ⟨0, 1⟩ (by decide)).1
      (by norm_num [JsNum.toRat])
    rw [h, if_pos (by norm_num [JsNum.toRat]), hc]
    rfl
  · have h := priority_correction_clamps.2.1 [("ClientID", "C2"), ("PriorityLevel", "9")]
      "9" ⟨9, 1⟩ rfl (by decide) (by rfl)
    have hc := (priority_correction_clamps.2.2 ⟨9, 1⟩ (by decide)).2
      (by norm_num [JsNum.toRat])
    rw [h, if_pos (by norm_num [JsNum.toRat]), hc]
    rfl
  · have h := priority_correction_clamps.2.1 [("ClientID", "C3"), ("PriorityLevel", "3")]
      "3" ⟨3, 1⟩ rfl (by decide) (by rfl)
    rw [h, if_neg (by norm_num [JsNum.toRat])]

/-- Specification-side coverage: a (canonical, trimmed and lower-cased)
skill tag is covered when some worker's truthy `Skills` list contains an
entry equal to it up to trimming and lower-casing. -/
def coveredBySpec (workers : List Row) (tag : String) : Prop :=
  ∃ w ∈ workers, ∃ s, rowGet w "Skills" = some s ∧ jsTruthy s = true ∧
    ∃ e ∈ jsSplit ',' s, jsLower (jsTrim e) = tag

/-- The canonical (trimmed, lower-cased) required-skill tags of a task. -/
def requiredTags (task : Row) : List String :=
  match rowGet task "RequiredSkills" with
  | none => []
  | some s =>
    if jsTruthy s then (jsSplit ',' s).map (fun skill => jsLower (jsTrim skill)) else []

lemma mem_setAdd {l : List String} {x y : String} :
    y ∈ setAdd l x ↔ y ∈ l ∨ y = x := by
  unfold setAdd
  split
  case isTrue h => exact ⟨Or.inl, fun hy => hy.elim id (fun he => he ▸ h)⟩
  case isFalse _ => simp

lemma mem_foldl_setAdd (g : String → String) (entries : List String) :
    ∀ (acc : List String) (y : String),
      y ∈ entries.foldl (fun a e => setAdd a (g e)) acc ↔
        y ∈ acc ∨ ∃ e ∈ entries, g e = y := by
  induction entries with
  | nil => simp
  | cons e rest ih =>
    intro acc y
    rw [List.foldl_cons, ih, mem_setAdd]
    constructor
    · rintro ((hy | hy) | ⟨e', he', hg⟩)
      · exact Or.inl hy
      · exact Or.inr ⟨e, by simp, hy.symm⟩
      · exact Or.inr ⟨e', by simp [he'], hg⟩
    · rintro (hy | ⟨e', he', hg⟩)
      · exact Or.inl (Or.inl hy)
      · rcases List.mem_cons.mp he' with rfl | he''
        · exact Or.inl (Or.inr hg.symm)
        · exact Or.inr ⟨e', he'', hg⟩

lemma mem_workerSkillSet_aux (ws : List Row) :
    ∀ (acc : List String) (y : String),
      y ∈ ws.foldl (fun acc worker =>
        match rowGet worker "Skills" with
        | none => acc
        | some s =>
          if jsTruthy s then
            (jsSplit ',' s).foldl (fun acc2 skill => setAdd acc2 (jsLower (jsTrim skill))) acc
          else acc) acc ↔
      y ∈ acc ∨ ∃ w ∈ ws, ∃ s, rowGet w "Skills" = some s ∧ jsTruthy s = true ∧
        ∃ e ∈ jsSplit ',' s, jsLower (jsTrim e) = y := by
  induction ws with
  | nil => simp
  | cons w rest ih =>
    intro acc y
    rw [List.foldl_cons, ih]
    constructor
    · rintro (hy | ⟨w', hw', hs⟩)
      · cases hW : rowGet w "Skills" with
        | none => simp only [hW] at hy; exact Or.inl hy
        | some s =>
          simp only [hW] at hy
          by_cases ht : jsTruthy s
          · rw [if_pos ht] at hy
            rcases (mem_foldl_setAdd _ _ acc y).mp hy with hy2 | ⟨e, he, hg⟩
            · exact Or.inl hy2
            · exact Or.inr ⟨w, by simp, s, hW, ht, e, he, hg⟩
          · rw [if_neg ht] at hy; exact Or.inl hy
      · exact Or.inr ⟨w', by simp [hw'], hs⟩
    · rintro (hy | ⟨w', hw', s, hW', ht', e, he, hg⟩)
      · left
        cases hW : rowGet w "Skills" with
        | none => simp only [hW]; exact hy
        | some s =>
          simp only [hW]
          by_cases ht : jsTruthy s
          · rw [if_pos ht]
            exact (mem_foldl_setAdd _ _ acc y).mpr (Or.inl hy)
          · rw [if_neg ht]; exact hy
      · rcases List.mem_cons.mp hw' with rfl | hw2
        · left
          simp only [hW', ht', if_true]
          exact (mem_foldl_setAdd _ _ acc y).mpr (Or.inr ⟨e, he, hg⟩)
        · exact Or.inr ⟨w', hw2, s, hW', ht', e, he, hg⟩

/-- The set built by `skillCoverage` contains exactly the covered tags. -/
lemma mem_workerSkillSet {ws : List Row} {tag : String} :
    tag ∈ workerSkillSet ws ↔ coveredBySpec ws tag := by
  unfold workerSkillSet coveredBySpec
  rw [mem_workerSkillSet_aux]
  simp

/-- C6: skill coverage is case-insensitive and whitespace-trimmed.
`skillCoverage` scans all tasks against the worker-skill set; a canonical
required tag is missing exactly when no worker's `Skills` entry matches it
up to trimming and lower-casing; a task yields one error diagnostic,
attributed to it and listing the missing tags, exactly when its missing
list is non-empty (and none when fully covered).  Concretely, a task
requiring `"JavaScript"` is satisfied by a worker listing
`"javascript, python"`. -/
theorem skill_coverage_case_insensitive :
    (∀ ctx, skillCoverage ctx =
      ctx.tasks.flatMap (taskSkillDiags (workerSkillSet ctx.workers))) ∧
    (∀ (ws : List Row) (tag : String),
      tag ∈ workerSkillSet ws ↔ coveredBySpec ws tag) ∧
    (∀ (ws : List Row) (t : Row) (tag : String),
      tag ∈ taskMissingSkills (workerSkillSet ws) t ↔
        tag ∈ requiredTags t ∧ ¬ coveredBySpec ws tag) ∧
    (∀ (skills : List String) (t : Row),
      taskSkillDiags skills t =
        if taskMissingSkills skills t = [] then []
        else
          [{ id := "missing-skills-" ++ optStr (rowGet t "TaskID")
             type := "skill_coverage", severity := "error"
             message := "No workers have required skills: " ++
               String.intercalate ", " (taskMissingSkills skills t)
             entity := "task", entityId := rowGet t "TaskID"
             field := some "RequiredSkills", fixable := some true
             suggestion := some ("Add workers with skills: " ++
               String.intercalate ", " (taskMissingSkills skills t) ++
               " or modify task requirements") }]) ∧
    skillCoverage ⟨[], [[("WorkerID", "W1"), ("Skills", "javascript, python")]],
      [[("TaskID", "T1"), ("RequiredSkills", "JavaScript")]]⟩ = [] ∧
    (skillCoverage ⟨[], [],
      [[("TaskID", "T1"), ("RequiredSkills", "JavaScript")]]⟩).length = 1 := by
  refine ⟨fun _ => rfl, fun ws tag => mem_workerSkillSet, ?_, ?_, rfl, rfl⟩
  · intro ws t tag
    unfold taskMissingSkills requiredTags
    cases hR : rowGet t "RequiredSkills" with
    | none => simp
    | some s =>
      by_cases ht : jsTruthy s
      · dsimp only
        rw [if_pos ht, if_pos ht, List.mem_filter]
        simp only [decide_eq_true_eq, mem_workerSkillSet]
      · simp [ht]
  · intro skills t
    unfold taskSkillDiags
    cases hR : rowGet t "RequiredSkills" with
    | none =>
      have hm : taskMissingSkills skills t = [] := by
        unfold taskMissingSkills; rw [hR]
      rw [hm]
      simp
    | some s =>
      by_cases ht : jsTruthy s
      · simp only [ht, if_true]
        cases hm : taskMissingSkills skills t with
        | nil => simp [hm]
        | cons a rest => simp [hm]
      · have hm : taskMissingSkills skills t = [] := by
          unfold taskMissingSkills
          rw [hR]
          dsimp only
          rw [if_neg ht]
        simp [ht, hm]

lemma jsIndexOf_go_spec (x : String) : ∀ (l : List String) (i : Int),
    (x ∉ l → jsIndexOf.go x l i = -1) ∧
    (x ∈ l → ∃ j : Nat, jsIndexOf.go x l i = i + j ∧ l[j]? = some x ∧
      ∀ k < j, l[k]? ≠ some x) := by
  intro l
  induction l with
  | nil => exact fun i => ⟨fun _ => rfl, by simp⟩
  | cons y ys ih =>
    intro i
    constructor
    · intro hx
      have hy : ¬ y = x := fun h => hx (by simp [h])
      have hys : x ∉ ys := fun h => hx (by simp [h])
      simpa [jsIndexOf.go, hy] using (ih (i + 1)).1 hys
    · intro hx
      by_cases hy : y = x
      · refine ⟨0, ?_, by simp [hy], by omega⟩
        simp [jsIndexOf.go, hy]
      · have hys : x ∈ ys := by
          rcases List.mem_cons.mp hx with h | h
          · exact absurd h.symm hy
          · exact h
        obtain ⟨j, hj1, hj2, hj3⟩ := (ih (i + 1)).2 hys
        refine ⟨j + 1, ?_, by simpa using hj2, ?_⟩
        · rw [jsIndexOf.go, if_neg hy, hj1]
          push_cast
          ring
        · intro k hk
          cases k with
          | zero => simpa using fun h => hy h
          | succ k' => simpa using hj3 k' (by omega)

lemma two_le_count_iff (l : List String) (v : String) :
    2 ≤ l.count v ↔ ∃ i j : Nat, i ≠ j ∧ l[i]? = some v ∧ l[j]? = some v := by
  constructor
  · intro h
    induction l with
    | nil => simp at h
    | cons y ys ih =>
      rw [List.count_cons] at h
      by_cases hy : y = v
      · have h1 : 1 ≤ ys.count v := by
          rw [if_pos (by simp [hy])] at h
          omega
        have hmem : v ∈ ys := by
          by_contra hno
          rw [List.count_eq_zero_of_not_mem hno] at h1
          omega
        obtain ⟨k, hk⟩ := List.mem_iff_getElem?.mp hmem
        exact ⟨0, k + 1, by omega, by simp [hy], by simpa using hk⟩
      · have h2 : 2 ≤ ys.count v := by
          rw [if_neg (by simp [hy])] at h
          omega
        obtain ⟨i, j, hij, hi, hj⟩ := ih h2
        exact ⟨i + 1, j + 1, by omega, by simpa using hi, by simpa using hj⟩
  · rintro ⟨i, j, hij, hi, hj⟩
    induction l generalizing i j with
    | nil => simp at hi
    | cons y ys ih =>
      rw [List.count_cons]
      match i, j with
      | 0, 0 => omega
      | 0, j' + 1 =>
        have hy : y = v := by simpa using hi
        have hmem : v ∈ ys := List.mem_iff_getElem?.mpr ⟨j', by simpa using hj⟩
        have h1 : 1 ≤ ys.count v := by
          by_contra hno
          have h0 : ys.count v = 0 := by omega
          exact (List.count_eq_zero.mp h0) hmem
        rw [if_pos (by simp [hy])]
        omega
      | i' + 1, 0 =>
        have hy : y = v := by simpa using hj
        have hmem : v ∈ ys := List.mem_iff_getElem?.mpr ⟨i', by simpa using hi⟩
        have h1 : 1 ≤ ys.count v := by
          by_contra hno
          have h0 : ys.count v = 0 := by omega
          exact (List.count_eq_zero.mp h0) hmem
        rw [if_pos (by simp [hy])]
        omega
      | i' + 1, j' + 1 =>
        have := ih i' j' (by omega) (by simpa using hi) (by simpa using hj)
        omega

lemma mem_jsSetOf_go : ∀ (l seen : List String) (x : String),
    x ∈ jsSetOf.go seen l ↔ x ∈ l ∧ x ∉ seen := by
  intro l
  induction l with
  | nil => simp [jsSetOf.go]
  | cons y ys ih =>
    intro seen x
    rw [jsSetOf.go]
    split
    case isTrue hy =>
      rw [ih]
      constructor
      · rintro ⟨hx, hns⟩
        exact ⟨by simp [hx], hns⟩
      · rintro ⟨hx, hns⟩
        rcases List.mem_cons.mp hx with rfl | hx'
        · exact absurd hy hns
        · exact ⟨hx', hns⟩
    case isFalse hy =>
      constructor
      · intro hx
        rcases List.mem_cons.mp hx with rfl | hx'
        · exact ⟨by simp, hy⟩
        · obtain ⟨h1, h2⟩ := (ih _ _).mp hx'
          exact ⟨by simp [h1], fun hs => h2 (by simp [hs])⟩
      · rintro ⟨hx, hns⟩
        rcases List.mem_cons.mp hx with rfl | hx'
        · exact List.mem_cons_self _ _
        · by_cases hxy : x = y
          · exact hxy ▸ List.mem_cons_self _ _
          · exact List.mem_cons_of_mem _ ((ih _ _).mpr ⟨hx', by simp [hxy, hns]⟩)

lemma nodup_jsSetOf_go : ∀ (l seen : List String), (jsSetOf.go seen l).Nodup := by
  intro l
  induction l with
  | nil => intro seen; simp [jsSetOf.go]
  | cons y ys ih =>
    intro seen
    rw [jsSetOf.go]
    split
    case isTrue _ => exact ih seen
    case isFalse hy =>
      refine List.nodup_cons.mpr ⟨?_, ih (y :: seen)⟩
      intro hmem
      exact ((mem_jsSetOf_go ys (y :: seen) y).mp hmem).2 (by simp)

lemma countP_eq_ite_of_nodup {l : List String} {v : String} (h : l.Nodup) :
    l.countP (fun w => w = v) = if v ∈ l then 1 else 0 := by
  induction l with
  | nil => simp
  | cons y ys ih =>
    rw [List.countP_cons]
    obtain ⟨hy, hys⟩ := List.nodup_cons.mp h
    by_cases hyv : y = v
    · subst hyv
      have hz : List.countP (fun w => decide (w = y)) ys = 0 := by
        rw [List.countP_eq_zero]
        intro a ha
        simp only [decide_eq_true_eq]
        exact fun h' => hy (h' ▸ ha)
      rw [hz]
      simp
    · rw [ih hys]
      have hvy : ¬ v = y := fun h' => hyv h'.symm
      by_cases hv : v ∈ ys
      · simp [hv, hyv, List.mem_cons, hvy]
      · simp [hv, hyv, List.mem_cons, hvy]

/-- Membership in the duplicate-occurrence list built with
`ids.filter((id, index) => ids.indexOf(id) !== index)` is exactly
"the value occurs at least twice". -/
lemma mem_dup_occurrences {ids : List String} {v : String} :
    v ∈ (ids.enum.filter (fun p => jsIndexOf ids p.2 ≠ (p.1 : Int))).map
        (fun p => p.2) ↔ 2 ≤ ids.count v := by
  constructor
  · intro h
    obtain ⟨⟨i, x⟩, hp, hx⟩ := List.mem_map.mp h
    obtain ⟨henum, hidx⟩ := List.mem_filter.mp hp
    have hget : ids[i]? = some x := List.mem_enum_iff_getElem?.mp henum
    have hmem : x ∈ ids := List.mem_iff_getElem?.mpr ⟨i, hget⟩
    obtain ⟨j, hj1, hj2, _⟩ := (jsIndexOf_go_spec x ids 0).2 hmem
    have hprop : jsIndexOf ids x ≠ (i : Int) := by simpa using hidx
    have hji : j ≠ i := by
      intro hcontr
      apply hprop
      unfold jsIndexOf
      rw [hj1]
      subst hcontr
      simp
    rw [← hx]
    exact (two_le_count_iff ids x).mpr ⟨j, i, hji, hj2, hget⟩
  · intro h
    obtain ⟨i, j, hij, hi, hj⟩ := (two_le_count_iff ids v).mp h
    have hmem : v ∈ ids := List.mem_iff_getElem?.mpr ⟨i, hi⟩
    obtain ⟨j0, hj1, _, _⟩ := (jsIndexOf_go_spec v ids 0).2 hmem
    have hfirst : jsIndexOf ids v = (j0 : Int) := by
      unfold jsIndexOf
      rw [hj1]
      simp
    by_cases hcase : i = j0
    · refine List.mem_map.mpr ⟨(j, v), List.mem_filter.mpr
        ⟨List.mem_enum_iff_getElem?.mpr hj, ?_⟩, rfl⟩
      rw [hfirst]
      simpa using by omega
    · refine List.mem_map.mpr ⟨(i, v), List.mem_filter.mpr
        ⟨List.mem_enum_iff_getElem?.mpr hi, ?_⟩, rfl⟩
      rw [hfirst]
      simpa using by omega

lemma mem_jsSetOf {l : List String} {v : String} : v ∈ jsSetOf l ↔ v ∈ l := by
  rw [jsSetOf, mem_jsSetOf_go]
  simp

lemma nodup_jsSetOf (l : List String) : (jsSetOf l).Nodup :=
  nodup_jsSetOf_go l []

/-- The count of a non-empty value among the truthy-filtered id column equals
the number of rows whose id field holds that value. -/
lemma count_truthy_ids (data : List Row) (f v : String) (hv : v ≠ "") :
    ((data.map (fun row => rowGet row f)).filterMap
      (fun o => match o with
        | none => none
        | some s => if jsTruthy s then some s else none)).count v
    = data.countP (fun row => rowGet row f = some v) := by
  induction data with
  | nil => rfl
  | cons r rs ih =>
    rw [List.map_cons, List.filterMap_cons, List.countP_cons]
    cases hr : rowGet r f with
    | none =>
      simp only [hr]
      rw [ih]
      simp
    | some s =>
      simp only [hr]
      by_cases hs : jsTruthy s
      · rw [if_pos hs, List.count_cons, ih]
        by_cases hsv : s = v
        · subst hsv
          simp
        · simp [hsv, fun h : rowGet r f = some v => hsv (by
            rw [hr] at h
            exact Option.some.inj h)]
      · rw [if_neg hs, ih]
        have hse : s = "" := by
          by_contra hne
          exact hs (by simp [jsTruthy, hne])
        have hsv : rowGet r f ≠ some v := by
          rw [hr, hse]
          exact fun h => hv (Option.some.inj h).symm
        have hsv2 : ¬ s = v := by
          rw [hse]
          exact fun h => hv h.symm
        simp [hsv, hsv2]

/-- C1 (amended: restricted to non-empty id values, since
`ids.filter(Boolean)` drops falsy ids): for every entity collection and every
non-empty id value `v`, the duplicate-id check emits exactly one diagnostic
with id `"duplicate-" ++ v` when `v` occurs in the id field of at least two
rows and none otherwise; every emitted diagnostic has severity `error`,
type `duplicate_id` and `fixable = true`. -/
theorem duplicate_ids_once_per_value (data : List Row) (et v : String)
    (hv : v ≠ "") :
    (duplicateIDs data et).countP (fun d => d.id = "duplicate-" ++ v)
      = (if 2 ≤ data.countP (fun row => rowGet row (idFieldOf et) = some v)
         then 1 else 0)
    ∧ ∀ d ∈ duplicateIDs data et,
        d.severity = "error" ∧ d.type = "duplicate_id" ∧ d.fixable = some true := by
  constructor
  · unfold duplicateIDs
    dsimp only
    rw [List.countP_map]
    rw [List.countP_congr (fun id _ => by
      show (decide ("duplicate-" ++ id = "duplicate-" ++ v) = true)
        ↔ (decide (id = v) = true)
      simp only [decide_eq_true_eq]
      exact ⟨string_append_left_cancel, fun h => h ▸ rfl⟩)]
    rw [countP_eq_ite_of_nodup (nodup_jsSetOf _)]
    simp only [mem_jsSetOf, mem_dup_occurrences]
    rw [count_truthy_ids data (idFieldOf et) v hv]
  · intro d hd
    unfold duplicateIDs at hd
    dsimp only at hd
    obtain ⟨id, _, rfl⟩ := List.mem_map.mp hd
    exact ⟨rfl, rfl, rfl⟩

theorem duplicate_ids_once_per_value_witness :
    ("C1" : String) ≠ "" ∧
    (duplicateIDs [[("ClientID", "C1")], [("ClientID", "C1")],
        [("ClientID", "C1")]] "clients").countP
      (fun d => d.id = "duplicate-" ++ "C1") = 1 := by
  refine ⟨by decide, ?_⟩
  rw [(duplicate_ids_once_per_value
    [[("ClientID", "C1")], [("ClientID", "C1")], [("ClientID", "C1")]]
    "clients" "C1" (by decide)).1]
  rfl

/-- C1 counterexample: an id value occurring in more than one row can yield
no duplicate diagnostic at all — `ids.filter(Boolean)` drops empty-string
ids, so two rows whose ClientID is `""` produce an empty report even though
the value `""` occurs twice. -/
theorem duplicate_ids_miss_empty_ids :
    ([[("ClientID", "")], [("ClientID", "")]] : List Row).countP
      (fun row => rowGet row (idFieldOf "clients") = some "") = 2
    ∧ duplicateIDs [[("ClientID", "")], [("ClientID", "")]] "clients" = [] :=
  ⟨rfl, rfl⟩

/-! ## C3: the co-run pair tally counts occurrences, not distinct clients -/

/-- Specification-side tally: how many index pairs `i < j` across all
clients' task lists produce the key `k`. -/
def pairTally (clients : List Row) (k : String) : Nat :=
  (clients.map (fun c => (pairKeysOf (clientTaskList c)).count k)).sum

lemma find?_map_upd_self (m : List (String × Nat)) (k : String) (v : Nat)
    (h : (m.find? (fun p => p.1 = k)).isSome) :
    (m.map (fun p => if p.1 = k then (k, v) else p)).find? (fun p => p.1 = k)
      = some (k, v) := by
  induction m with
  | nil => exact absurd h (by simp)
  | cons a rest ih =>
    by_cases ha : a.1 = k
    · simp only [List.map_cons, if_pos ha]
      rw [List.find?_cons_of_pos _ (by simp)]
    · simp only [List.map_cons, if_neg ha]
      rw [List.find?_cons_of_neg _ (by simp [ha])]
      rw [List.find?_cons_of_neg _ (by simp [ha])] at h
      exact ih h

lemma find?_map_upd_ne (m : List (String × Nat)) (k k' : String) (v : Nat)
    (h : k' ≠ k) :
    (m.map (fun p => if p.1 = k then (k, v) else p)).find? (fun p => p.1 = k')
      = m.find? (fun p => p.1 = k') := by
  induction m with
  | nil => rfl
  | cons a rest ih =>
    by_cases ha : a.1 = k
    · have hk' : ¬ a.1 = k' := fun hk => h (hk ▸ ha)
      simp only [List.map_cons, if_pos ha]
      rw [List.find?_cons_of_neg _
        (by simp only [decide_eq_true_eq]; exact fun hk => h hk.symm)]
      rw [List.find?_cons_of_neg _ (by simp [hk'])]
      exact ih
    · simp only [List.map_cons, if_neg ha]
      by_cases hk : a.1 = k'
      · rw [List.find?_cons_of_pos _ (by simp [hk]),
          List.find?_cons_of_pos _ (by simp [hk])]
      · rw [List.find?_cons_of_neg _ (by simp [hk]),
          List.find?_cons_of_neg _ (by simp [hk])]
        exact ih

lemma mapFind_mapSet_self (m : List (String × Nat)) (k : String) (v : Nat) :
    mapFind (mapSet m k v) k = some v := by
  unfold mapFind mapSet
  by_cases h : (m.find? (fun p => p.1 = k)).isSome
  · rw [if_pos h, find?_map_upd_self m k v h]
  · rw [if_neg h, List.find?_append]
    have h0 : m.find? (fun p => p.1 = k) = none := by
      cases hc : m.find? (fun p => p.1 = k) with
      | none => rfl
      | some p => exact absurd (by rw [hc]; rfl) h
    rw [h0]
    simp

lemma mapFind_mapSet_ne (m : List (String × Nat)) (k k' : String) (v : Nat)
    (h : k' ≠ k) :
    mapFind (mapSet m k v) k' = mapFind m k' := by
  unfold mapFind mapSet
  by_cases hs : (m.find? (fun p => p.1 = k)).isSome
  · rw [if_pos hs, find?_map_upd_ne m k k' v h]
  · rw [if_neg hs, List.find?_append]
    have h1 : List.find? (fun p => p.1 = k') [(k, v)] = none := by
      rw [List.find?_cons_of_neg _
        (by simp only [decide_eq_true_eq]; exact fun hk => h hk.symm)]
      rfl
    rw [h1, Option.or_none]

lemma mapFind_mapInc_self (m : List (String × Nat)) (k : String) :
    mapFind (mapInc m k) k = some ((mapFind m k).getD 0 + 1) :=
  mapFind_mapSet_self m k _

lemma mapFind_mapInc_ne (m : List (String × Nat)) (k k' : String)
    (h : k' ≠ k) :
    mapFind (mapInc m k) k' = mapFind m k' :=
  mapFind_mapSet_ne m k k' _ h

lemma keys_mapSet (m : List (String × Nat)) (k : String) (v : Nat) :
    (mapSet m k v).map Prod.fst
      = if (m.find? (fun p => p.1 = k)).isSome
        then m.map Prod.fst else m.map Prod.fst ++ [k] := by
  unfold mapSet
  by_cases h : (m.find? (fun p => p.1 = k)).isSome
  · rw [if_pos h, if_pos h, List.map_map]
    refine List.map_congr_left (fun p _ => ?_)
    by_cases hp : p.1 = k
    · simp [hp]
    · simp [hp]
  · rw [if_neg h, if_neg h]
    simp

lemma find?_isSome_iff_mem_keys (m : List (String × Nat)) (k : String) :
    (m.find? (fun p => p.1 = k)).isSome ↔ k ∈ m.map Prod.fst := by
  rw [List.find?_isSome]
  constructor
  · rintro ⟨p, hp, he⟩
    exact List.mem_map.mpr ⟨p, hp, by simpa using he⟩
  · intro hk
    obtain ⟨p, hp, he⟩ := List.mem_map.mp hk
    exact ⟨p, hp, by simpa using he⟩

lemma nodup_keys_mapInc (m : List (String × Nat)) (k : String)
    (h : (m.map Prod.fst).Nodup) : ((mapInc m k).map Prod.fst).Nodup := by
  unfold mapInc
  rw [keys_mapSet]
  by_cases hs : (m.find? (fun p => p.1 = k)).isSome
  · rw [if_pos hs]
    exact h
  · rw [if_neg hs]
    refine List.Nodup.append h (by simp) ?_
    intro a ha hb
    have : a = k := by simpa using hb
    subst this
    exact hs ((find?_isSome_iff_mem_keys m a).mpr ha)

lemma foldl_mapInc_find_some (ks : List String) :
    ∀ (m : List (String × Nat)) (k : String) (n : Nat),
    mapFind m k = some n →
    mapFind (ks.foldl mapInc m) k = some (n + ks.count k) := by
  induction ks with
  | nil =>
    intro m k n h
    simpa using h
  | cons x ks ih =>
    intro m k n h
    rw [List.foldl_cons]
    by_cases hxk : x = k
    · subst hxk
      have hstep : mapFind (mapInc m x) x = some (n + 1) := by
        rw [mapFind_mapInc_self, h]
        rfl
      rw [ih (mapInc m x) x (n + 1) hstep, List.count_cons_self]
      congr 1
      omega
    · have hstep : mapFind (mapInc m x) k = some n := by
        rw [mapFind_mapInc_ne m x k (fun hh => hxk hh.symm)]
        exact h
      rw [ih (mapInc m x) k n hstep, List.count_cons_of_ne (Ne.symm hxk)]

lemma foldl_mapInc_find_none (ks : List String) :
    ∀ (m : List (String × Nat)) (k : String),
    mapFind m k = none →
    mapFind (ks.foldl mapInc m) k
      = if 0 < ks.count k then some (ks.count k) else none := by
  induction ks with
  | nil =>
    intro m k h
    simpa using h
  | cons x ks ih =>
    intro m k h
    rw [List.foldl_cons]
    by_cases hxk : x = k
    · subst hxk
      have hstep : mapFind (mapInc m x) x = some 1 := by
        rw [mapFind_mapInc_self, h]
        rfl
      rw [foldl_mapInc_find_some ks (mapInc m x) x 1 hstep,
        List.count_cons_self, if_pos (by omega)]
      congr 1
      omega
    · have hstep : mapFind (mapInc m x) k = none := by
        rw [mapFind_mapInc_ne m x k (fun hh => hxk hh.symm)]
        exact h
      rw [ih (mapInc m x) k hstep, List.count_cons_of_ne (Ne.symm hxk)]

lemma nodup_keys_foldl_mapInc (ks : List String) :
    ∀ (m : List (String × Nat)), (m.map Prod.fst).Nodup →
    ((ks.foldl mapInc m).map Prod.fst).Nodup := by
  induction ks with
  | nil => intro m h; exact h
  | cons x ks ih =>
    intro m h
    exact ih (mapInc m x) (nodup_keys_mapInc m x h)

lemma buildTaskPairs_aux_some (cs : List Row) :
    ∀ (m : List (String × Nat)) (k : String) (n : Nat),
    mapFind m k = some n →
    mapFind (cs.foldl (fun m client =>
        (pairKeysOf (clientTaskList client)).foldl mapInc m) m) k
      = some (n + pairTally cs k) := by
  induction cs with
  | nil =>
    intro m k n h
    simpa [pairTally] using h
  | cons c cs ih =>
    intro m k n h
    rw [List.foldl_cons]
    have hstep := foldl_mapInc_find_some (pairKeysOf (clientTaskList c)) m k n h
    rw [ih _ k _ hstep]
    unfold pairTally
    rw [List.map_cons, List.sum_cons]
    congr 1
    omega

lemma buildTaskPairs_aux_none (cs : List Row) :
    ∀ (m : List (String × Nat)) (k : String),
    mapFind m k = none →
    mapFind (cs.foldl (fun m client =>
        (pairKeysOf (clientTaskList client)).foldl mapInc m) m) k
      = if 0 < pairTally cs k then some (pairTally cs k) else none := by
  induction cs with
  | nil =>
    intro m k h
    simpa [pairTally] using h
  | cons c cs ih =>
    intro m k h
    rw [List.foldl_cons]
    have htally : pairTally (c :: cs) k
        = (pairKeysOf (clientTaskList c)).count k + pairTally cs k := by
      unfold pairTally
      rw [List.map_cons, List.sum_cons]
    by_cases hc : 0 < (pairKeysOf (clientTaskList c)).count k
    · have hstep : mapFind ((pairKeysOf (clientTaskList c)).foldl mapInc m) k
          = some ((pairKeysOf (clientTaskList c)).count k) := by
        rw [foldl_mapInc_find_none (pairKeysOf (clientTaskList c)) m k h,
          if_pos hc]
      rw [buildTaskPairs_aux_some cs _ k _ hstep, htally, if_pos (by omega)]
    · have hc0 : (pairKeysOf (clientTaskList c)).count k = 0 := by omega
      have hstep : mapFind ((pairKeysOf (clientTaskList c)).foldl mapInc m) k
          = none := by
        rw [foldl_mapInc_find_none (pairKeysOf (clientTaskList c)) m k h,
          if_neg hc]
      rw [ih _ k hstep, htally, hc0, Nat.zero_add]

lemma nodup_keys_buildTaskPairs_aux (cs : List Row) :
    ∀ (m : List (String × Nat)), (m.map Prod.fst).Nodup →
    ((cs.foldl (fun m client =>
        (pairKeysOf (clientTaskList client)).foldl mapInc m) m).map
      Prod.fst).Nodup := by
  induction cs with
  | nil => intro m h; exact h
  | cons c cs ih =>
    intro m h
    exact ih _ (nodup_keys_foldl_mapInc (pairKeysOf (clientTaskList c)) m h)

/-- C3 (amended): the co-run tally is per index pair of occurrences summed
over all clients, not per distinct client.  The `taskPairs` map holds, for
each sorted `-`-joined key, exactly the number of index pairs `i < j`
(across every single client's split, trimmed, truthy-filtered
`RequestedTaskIDs` list) whose sorted join is that key, each key appearing
once; and the co-run portion of the recommendations is exactly one
suggestion per key tallied at least 2, with confidence 0.7 and naming the
two `-`-separated components of the key. -/
theorem corun_recommendation_per_occurrence_tally (ctx : ValidationContext) :
    (∀ k : String, mapFind (buildTaskPairs ctx.clients) k
        = if 0 < pairTally ctx.clients k then some (pairTally ctx.clients k)
          else none)
    ∧ ((buildTaskPairs ctx.clients).map Prod.fst).Nodup
    ∧ (generateRuleRecommendations ctx).filter
        (fun s => s.action = "add_co_run_rule")
      = ((buildTaskPairs ctx.clients).filter (fun p => p.2 ≥ 2)).map (fun p =>
          { id := "co-run-rec-" ++ optStr ((jsSplit '-' p.1).get? 0) ++ "-" ++
              optStr ((jsSplit '-' p.1).get? 1)
            type := "rule"
            message := "Tasks " ++ optStr ((jsSplit '-' p.1).get? 0) ++
              " and " ++ optStr ((jsSplit '-' p.1).get? 1) ++
              " are frequently requested together. Consider adding a co-run rule."
            confidence := ⟨7, 10⟩
            action := "add_co_run_rule"
            data := .tasksPair ((jsSplit '-' p.1).get? 0)
              ((jsSplit '-' p.1).get? 1) }) := by
  refine ⟨fun k => buildTaskPairs_aux_none ctx.clients [] k rfl,
    nodup_keys_buildTaskPairs_aux ctx.clients [] (by simp), ?_⟩
  unfold generateRuleRecommendations
  dsimp only
  rw [List.filter_append, List.filter_map, List.filter_map]
  rw [List.filter_eq_self.mpr (fun a _ => by rfl)]
  have h2 : ∀ (L : List (String × GroupLoad)),
      L.filter ((fun s => decide (s.action = "add_co_run_rule")) ∘ fun p =>
        ({ id := "load-limit-rec-" ++ p.1
           type := "rule"
           message := p.1 ++
             " workers are overloaded. Consider adding a load limit rule."
           confidence := ⟨8, 10⟩
           action := "add_load_limit_rule"
           data := .groupLimit p.1
             ((3 * (p.2.totalSlots : Int)) / 2) } : AISuggestion)) = [] :=
    fun L => List.filter_eq_nil_iff.mpr (fun a _ => by simp)
  rw [h2, List.map_nil, List.append_nil]

/-- C3 counterexample: a single client requesting `"T1,T2,T1"` already
fires the co-run suggestion for the pair `T1-T2` — the key is tallied once
per index pair `i < j` within one client's list (here twice), so a pair
appearing in only one client's list can yield a suggestion. -/
theorem corun_fires_for_single_client :
    generateRuleRecommendations
      { clients := [[("ClientID", "C1"), ("RequestedTaskIDs", "T1,T2,T1")]]
        workers := []
        tasks := [] }
      = [{ id := "co-run-rec-T1-T2"
           type := "rule"
           message := "Tasks T1 and T2 are frequently requested together. Consider adding a co-run rule."
           confidence := ⟨7, 10⟩
           action := "add_co_run_rule"
           data := .tasksPair (some "T1") (some "T2") }] := rfl

/-! ## C5: applying every correction clears the targeted diagnostics -/

lemma find?_rowUpd_self (r : Row) (k v : String)
    (h : (r.find? (fun p => p.1 = k)).isSome) :
    (r.map (fun p => if p.1 = k then (k, v) else p)).find? (fun p => p.1 = k)
      = some (k, v) := by
  induction r with
  | nil => exact absurd h (by simp)
  | cons a rest ih =>
    by_cases ha : a.1 = k
    · simp only [List.map_cons, if_pos ha]
      rw [List.find?_cons_of_pos _ (by simp)]
    · simp only [List.map_cons, if_neg ha]
      rw [List.find?_cons_of_neg _ (by simp [ha])]
      rw [List.find?_cons_of_neg _ (by simp [ha])] at h
      exact ih h

lemma find?_rowUpd_ne (r : Row) (k k' v : String) (h : k' ≠ k) :
    (r.map (fun p => if p.1 = k then (k, v) else p)).find? (fun p => p.1 = k')
      = r.find? (fun p => p.1 = k') := by
  induction r with
  | nil => rfl
  | cons a rest ih =>
    by_cases ha : a.1 = k
    · have hk' : ¬ a.1 = k' := fun hk => h (hk ▸ ha)
      simp only [List.map_cons, if_pos ha]
      rw [List.find?_cons_of_neg _
        (by simp only [decide_eq_true_eq]; exact fun hk => h hk.symm)]
      rw [List.find?_cons_of_neg _ (by simp [hk'])]
      exact ih
    · simp only [List.map_cons, if_neg ha]
      by_cases hk : a.1 = k'
      · rw [List.find?_cons_of_pos _ (by simp [hk]),
          List.find?_cons_of_pos _ (by simp [hk])]
      · rw [List.find?_cons_of_neg _ (by simp [hk]),
          List.find?_cons_of_neg _ (by simp [hk])]
        exact ih

lemma rowGet_rowSet_self (r : Row) (k v : String) :
    rowGet (rowSet r k v) k = some v := by
  unfold rowGet rowSet
  by_cases h : (r.find? (fun p => p.1 = k)).isSome
  · rw [if_pos h, find?_rowUpd_self r k v h]
  · rw [if_neg h, List.find?_append]
    have h0 : r.find? (fun p => p.1 = k) = none := by
      cases hc : r.find? (fun p => p.1 = k) with
      | none => rfl
      | some p => exact absurd (by rw [hc]; rfl) h
    rw [h0]
    simp

lemma rowGet_rowSet_ne (r : Row) (k k' v : String) (h : k' ≠ k) :
    rowGet (rowSet r k v) k' = rowGet r k' := by
  unfold rowGet rowSet
  by_cases hs : (r.find? (fun p => p.1 = k)).isSome
  · rw [if_pos hs, find?_rowUpd_ne r k k' v h]
  · rw [if_neg hs, List.find?_append]
    have h1 : List.find? (fun p => p.1 = k') [(k, v)] = none := by
      rw [List.find?_cons_of_neg _
        (by simp only [decide_eq_true_eq]; exact fun hk => h hk.symm)]
      rfl
    rw [h1, Option.or_none]

lemma mem_updateRows {idf : String} {id : Option String} {f v : String}
    {rows : List Row} {r' : Row} (h : r' ∈ updateRows idf id f v rows) :
    ∃ r ∈ rows, r' = if rowGet r idf = id then rowSet r f v else r := by
  obtain ⟨r, hr, he⟩ := List.mem_map.mp h
  exact ⟨r, hr, he.symm⟩

/-- The targeted-fix invariant: every row of the collection whose id field
holds `id` carries one of the written values in its target field. -/
def rowsClean (idf : String) (id : Option String) (fld : String)
    (vals : List String) (rows : List Row) : Prop :=
  ∀ r ∈ rows, rowGet r idf = id → ∃ w ∈ vals, rowGet r fld = some w

lemma rowsClean_updateRows_establish {idf : String} {id : Option String}
    {fld w : String} {vals : List String} (hw : w ∈ vals) (rows : List Row) :
    rowsClean idf id fld vals (updateRows idf id fld w rows) := by
  intro r' hr' hid
  obtain ⟨r, hr, he⟩ := mem_updateRows hr'
  by_cases hmatch : rowGet r idf = id
  · rw [if_pos hmatch] at he
    exact ⟨w, hw, he ▸ rowGet_rowSet_self r fld w⟩
  · rw [if_neg hmatch] at he
    exact absurd (he ▸ hid) hmatch

lemma rowsClean_updateRows_preserve {idf : String} {id id' : Option String}
    {fld fld' w' : String} {vals : List String}
    (hne : fld' ≠ idf) (hval : fld' = fld → w' ∈ vals) {rows : List Row}
    (h : rowsClean idf id fld vals rows) :
    rowsClean idf id fld vals (updateRows idf id' fld' w' rows) := by
  intro r' hr' hid
  obtain ⟨r, hr, he⟩ := mem_updateRows hr'
  by_cases hmatch : rowGet r idf = id'
  · rw [if_pos hmatch] at he
    have hid0 : rowGet r idf = id := by
      rw [← hid, he, rowGet_rowSet_ne r fld' idf w' (fun hh => hne hh.symm)]
    by_cases hf : fld' = fld
    · subst hf
      exact ⟨w', hval rfl, he ▸ rowGet_rowSet_self r fld' w'⟩
    · obtain ⟨w, hwv, hwg⟩ := h r hr hid0
      refine ⟨w, hwv, ?_⟩
      rw [he, rowGet_rowSet_ne r fld' fld w' (fun hh => hf hh.symm)]
      exact hwg
  · rw [if_neg hmatch] at he
    have hid0 : rowGet r idf = id := by rw [← he]; exact hid
    have hres := h r hr hid0
    rw [he]
    exact hres

lemma handleApply_clients_cases (ctx : ValidationContext) (s : AISuggestion) :
    (handleApplySuggestion ctx s).clients = ctx.clients
    ∨ ∃ cid v, s.data = SugData.clientFix cid v ∧
        ((s.action = "fix_priority" ∧ (handleApplySuggestion ctx s).clients
            = updateRows "ClientID" cid "PriorityLevel" v.toStore ctx.clients)
         ∨ (s.action = "fix_json" ∧ (handleApplySuggestion ctx s).clients
            = updateRows "ClientID" cid "AttributesJSON" v.toStore ctx.clients)) := by
  unfold handleApplySuggestion
  by_cases h1 : s.action = "fix_priority"
  · rw [if_pos h1]
    cases hd : s.data with
    | clientFix cid v => exact Or.inr ⟨cid, v, rfl, Or.inl ⟨h1, rfl⟩⟩
    | workerFix a b => exact Or.inl rfl
    | taskFix a b => exact Or.inl rfl
    | tasksPair a b => exact Or.inl rfl
    | groupLimit a b => exact Or.inl rfl
  · rw [if_neg h1]
    by_cases h2 : s.action = "fix_json"
    · rw [if_pos h2]
      cases hd : s.data with
      | clientFix cid v => exact Or.inr ⟨cid, v, rfl, Or.inr ⟨h2, rfl⟩⟩
      | workerFix a b => exact Or.inl rfl
      | taskFix a b => exact Or.inl rfl
      | tasksPair a b => exact Or.inl rfl
      | groupLimit a b => exact Or.inl rfl
    · rw [if_neg h2]
      by_cases h3 : s.action = "fix_slots"
      · rw [if_pos h3]
        cases s.data <;> exact Or.inl rfl
      · rw [if_neg h3]
        by_cases h4 : s.action = "fix_load"
        · rw [if_pos h4]
          cases s.data <;> exact Or.inl rfl
        · rw [if_neg h4]
          by_cases h5 : s.action = "fix_duration"
          · rw [if_pos h5]
            cases s.data <;> exact Or.inl rfl
          · rw [if_neg h5]
            by_cases h6 : s.action = "fix_concurrent"
            · rw [if_pos h6]
              cases s.data <;> exact Or.inl rfl
            · rw [if_neg h6]
              exact Or.inl rfl

lemma handleApply_workers_cases (ctx : ValidationContext) (s : AISuggestion) :
    (handleApplySuggestion ctx s).workers = ctx.workers
    ∨ ∃ wid v, s.data = SugData.workerFix wid v ∧
        ((s.action = "fix_slots" ∧ (handleApplySuggestion ctx s).workers
            = updateRows "WorkerID" wid "AvailableSlots" v.toStore ctx.workers)
         ∨ (s.action = "fix_load" ∧ (handleApplySuggestion ctx s).workers
            = updateRows "WorkerID" wid "MaxLoadPerPhase" v.toStore ctx.workers)) := by
  unfold handleApplySuggestion
  by_cases h1 : s.action = "fix_priority"
  · rw [if_pos h1]
    cases s.data <;> exact Or.inl rfl
  · rw [if_neg h1]
    by_cases h2 : s.action = "fix_json"
    · rw [if_pos h2]
      cases s.data <;> exact Or.inl rfl
    · rw [if_neg h2]
      by_cases h3 : s.action = "fix_slots"
      · rw [if_pos h3]
        cases hd : s.data with
        | workerFix wid v => exact Or.inr ⟨wid, v, rfl, Or.inl ⟨h3, rfl⟩⟩
        | clientFix a b => exact Or.inl rfl
        | taskFix a b => exact Or.inl rfl
        | tasksPair a b => exact Or.inl rfl
        | groupLimit a b => exact Or.inl rfl
      · rw [if_neg h3]
        by_cases h4 : s.action = "fix_load"
        · rw [if_pos h4]
          cases hd : s.data with
          | workerFix wid v => exact Or.inr ⟨wid, v, rfl, Or.inr ⟨h4, rfl⟩⟩
          | clientFix a b => exact Or.inl rfl
          | taskFix a b => exact Or.inl rfl
          | tasksPair a b => exact Or.inl rfl
          | groupLimit a b => exact Or.inl rfl
        · rw [if_neg h4]
          by_cases h5 : s.action = "fix_duration"
          · rw [if_pos h5]
            cases s.data <;> exact Or.inl rfl
          · rw [if_neg h5]
            by_cases h6 : s.action = "fix_concurrent"
            · rw [if_pos h6]
              cases s.data <;> exact Or.inl rfl
            · rw [if_neg h6]
              exact Or.inl rfl

lemma handleApply_tasks_cases (ctx : ValidationContext) (s : AISuggestion) :
    (handleApplySuggestion ctx s).tasks = ctx.tasks
    ∨ ∃ tid v, s.data = SugData.taskFix tid v ∧
        ((s.action = "fix_duration" ∧ (handleApplySuggestion ctx s).tasks
            = updateRows "TaskID" tid "Duration" v.toStore ctx.tasks)
         ∨ (s.action = "fix_concurrent" ∧ (handleApplySuggestion ctx s).tasks
            = updateRows "TaskID" tid "MaxConcurrent" v.toStore ctx.tasks)) := by
  unfold handleApplySuggestion
  by_cases h1 : s.action = "fix_priority"
  · rw [if_pos h1]
    cases s.data <;> exact Or.inl rfl
  · rw [if_neg h1]
    by_cases h2 : s.action = "fix_json"
    · rw [if_pos h2]
      cases s.data <;> exact Or.inl rfl
    · rw [if_neg h2]
      by_cases h3 : s.action = "fix_slots"
      · rw [if_pos h3]
        cases s.data <;> exact Or.inl rfl
      · rw [if_neg h3]
        by_cases h4 : s.action = "fix_load"
        · rw [if_pos h4]
          cases s.data <;> exact Or.inl rfl
        · rw [if_neg h4]
          by_cases h5 : s.action = "fix_duration"
          · rw [if_pos h5]
            cases hd : s.data with
            | taskFix tid v => exact Or.inr ⟨tid, v, rfl, Or.inl ⟨h5, rfl⟩⟩
            | clientFix a b => exact Or.inl rfl
            | workerFix a b => exact Or.inl rfl
            | tasksPair a b => exact Or.inl rfl
            | groupLimit a b => exact Or.inl rfl
          · rw [if_neg h5]
            by_cases h6 : s.action = "fix_concurrent"
            · rw [if_pos h6]
              cases hd : s.data with
              | taskFix tid v => exact Or.inr ⟨tid, v, rfl, Or.inr ⟨h6, rfl⟩⟩
              | clientFix a b => exact Or.inl rfl
              | workerFix a b => exact Or.inl rfl
              | tasksPair a b => exact Or.inl rfl
              | groupLimit a b => exact Or.inl rfl
            · rw [if_neg h6]
              exact Or.inl rfl

/-- Under either trigger comparison, `Math.max(1, Math.min(5, v))` stores
back `"1"` or `"5"`. -/
lemma clampPriority_toStore (s : String)
    (h : jsLtNum s 1 = true ∨ jsGtNum s 5 = true) :
    (clampPriority s).toStore = "1" ∨ (clampPriority s).toStore = "5" := by
  cases hq : jsNumber s with
  | none =>
    rcases h with h | h
    · unfold jsLtNum at h
      rw [hq] at h
      exact absurd h (by simp)
    · unfold jsGtNum at h
      rw [hq] at h
      exact absurd h (by simp)
  | some q =>
    have hden : 0 < q.den := jsNumber_den_pos hq
    have hc : clampPriority s = .num (jsMax ⟨1, 1⟩ (jsMin ⟨5, 1⟩ q)) := by
      unfold clampPriority
      rw [hq]
    rcases h with h | h
    · unfold jsLtNum at h
      rw [hq] at h
      have h' : q.num < 1 * (q.den : Int) := by
        simpa [JsNum.gtOfInt] using h
      have hmin : jsMin ⟨5, 1⟩ q = q := by
        unfold jsMin JsNum.lt
        rw [if_pos]
        simp only [decide_eq_true_eq]
        omega
      have hmax : jsMax ⟨1, 1⟩ q = ⟨1, 1⟩ := by
        unfold jsMax JsNum.lt
        rw [if_neg]
        simp only [decide_eq_true_eq]
        omega
      left
      rw [hc, hmin, hmax]
      rfl
    · unfold jsGtNum at h
      rw [hq] at h
      have h' : 5 * (q.den : Int) < q.num := by
        simpa [JsNum.ltOfInt] using h
      have hmin : jsMin ⟨5, 1⟩ q = ⟨5, 1⟩ := by
        unfold jsMin JsNum.lt
        rw [if_neg]
        simp only [decide_eq_true_eq]
        omega
      right
      rw [hc, hmin]
      rfl

/-- The written values every correction suggestion carries, per action. -/
def sWellWritten (s : AISuggestion) : Prop :=
  (s.action = "fix_priority" → ∀ cid v, s.data = SugData.clientFix cid v →
    v.toStore = "1" ∨ v.toStore = "5")
  ∧ (s.action = "fix_json" → ∀ cid v, s.data = SugData.clientFix cid v →
    v.toStore = "\x7b\x7d")
  ∧ (s.action = "fix_slots" → ∀ wid v, s.data = SugData.workerFix wid v →
    v.toStore = "[1,2,3,4,5]")
  ∧ (s.action = "fix_load" → ∀ wid v, s.data = SugData.workerFix wid v →
    v.toStore = "1")
  ∧ (s.action = "fix_duration" → ∀ tid v, s.data = SugData.taskFix tid v →
    v.toStore = "1")
  ∧ (s.action = "fix_concurrent" → ∀ tid v, s.data = SugData.taskFix tid v →
    v.toStore = "1")

lemma wellWritten_generateCorrections (ctx : ValidationContext) :
    ∀ s ∈ generateCorrections ctx, sWellWritten s := by
  intro s hs
  unfold generateCorrections at hs
  rcases List.mem_append.mp hs with hs' | hTK
  · rcases List.mem_append.mp hs' with hCL | hWK
    · obtain ⟨c, _, hsc⟩ := List.mem_flatMap.mp hCL
      unfold clientCorrections at hsc
      rcases List.mem_append.mp hsc with h | h
      · unfold clientPriorityFix at h
        split at h
        · exact absurd h (by simp)
        · rename_i s0 _
          split at h
          · rename_i hcond
            have hseq := List.mem_singleton.mp h
            subst hseq
            refine ⟨fun _ cid v hd => ?_, fun ha => by simp at ha,
              fun ha => by simp at ha, fun ha => by simp at ha,
              fun ha => by simp at ha, fun ha => by simp at ha⟩
            injection hd with h1 h2
            rw [← h2]
            exact clampPriority_toStore s0 hcond.2
          · exact absurd h (by simp)
      · unfold clientJsonFix at h
        split at h
        · exact absurd h (by simp)
        · split at h
          · split at h
            · exact absurd h (by simp)
            · have hseq := List.mem_singleton.mp h
              subst hseq
              refine ⟨fun ha => by simp at ha, fun _ cid v hd => ?_,
                fun ha => by simp at ha, fun ha => by simp at ha,
                fun ha => by simp at ha, fun ha => by simp at ha⟩
              injection hd with h1 h2
              rw [← h2]
              rfl
          · exact absurd h (by simp)
    · obtain ⟨w, _, hsw⟩ := List.mem_flatMap.mp hWK
      unfold workerCorrections at hsw
      rcases List.mem_append.mp hsw with h | h
      · unfold workerSlotsFix at h
        split at h
        · exact absurd h (by simp)
        · split at h
          · split at h
            · split at h
              · exact absurd h (by simp)
              · have hseq := List.mem_singleton.mp h
                subst hseq
                refine ⟨fun ha => by simp at ha,
                  fun ha => by simp at ha, fun _ wid v hd => ?_,
                  fun ha => by simp at ha, fun ha => by simp at ha,
                  fun ha => by simp at ha⟩
                injection hd with h1 h2
                rw [← h2]
                rfl
            · have hseq := List.mem_singleton.mp h
              subst hseq
              refine ⟨fun ha => by simp at ha,
                fun ha => by simp at ha, fun _ wid v hd => ?_,
                fun ha => by simp at ha, fun ha => by simp at ha,
                fun ha => by simp at ha⟩
              injection hd with h1 h2
              rw [← h2]
              rfl
          · exact absurd h (by simp)
      · unfold workerLoadFix at h
        split at h
        · exact absurd h (by simp)
        · split at h
          · have hseq := List.mem_singleton.mp h
            subst hseq
            refine ⟨fun ha => by simp at ha, fun ha => by simp at ha,
              fun ha => by simp at ha, fun _ wid v hd => ?_,
              fun ha => by simp at ha, fun ha => by simp at ha⟩
            injection hd with h1 h2
            rw [← h2]
            rfl
          · exact absurd h (by simp)
  · obtain ⟨t, _, hst⟩ := List.mem_flatMap.mp hTK
    unfold taskCorrections at hst
    rcases List.mem_append.mp hst with h | h
    · unfold taskDurationFix at h
      split at h
      · exact absurd h (by simp)
      · split at h
        · have hseq := List.mem_singleton.mp h
          subst hseq
          refine ⟨fun ha => by simp at ha, fun ha => by simp at ha,
            fun ha => by simp at ha, fun ha => by simp at ha,
            fun _ tid v hd => ?_, fun ha => by simp at ha⟩
          injection hd with h1 h2
          rw [← h2]
          rfl
        · exact absurd h (by simp)
    · unfold taskConcurrentFix at h
      split at h
      · exact absurd h (by simp)
      · split at h
        · have hseq := List.mem_singleton.mp h
          subst hseq
          refine ⟨fun ha => by simp at ha, fun ha => by simp at ha,
            fun ha => by simp at ha, fun ha => by simp at ha,
            fun ha => by simp at ha, fun _ tid v hd => ?_⟩
          injection hd with h1 h2
          rw [← h2]
          rfl
        · exact absurd h (by simp)

lemma step_clientsClean (ctx : ValidationContext) (s : AISuggestion)
    (hW : sWellWritten s) (id : Option String) (fld : String)
    (vals : List String)
    (hfv : (fld = "PriorityLevel" ∧ vals = ["1", "5"])
         ∨ (fld = "AttributesJSON" ∧ vals = ["\x7b\x7d"]))
    (h : rowsClean "ClientID" id fld vals ctx.clients) :
    rowsClean "ClientID" id fld vals (handleApplySuggestion ctx s).clients := by
  rcases handleApply_clients_cases ctx s with hc | ⟨cid, v, hd, hcase⟩
  · rw [hc]
    exact h
  · rcases hcase with ⟨ha, hc⟩ | ⟨ha, hc⟩
    · rw [hc]
      refine rowsClean_updateRows_preserve (by decide) ?_ h
      intro hf
      have hv := hW.1 ha cid v hd
      rcases hfv with ⟨hfld, hvals⟩ | ⟨hfld, hvals⟩
      · subst hvals
        rcases hv with h1 | h1 <;> simp [h1]
      · exact absurd (hf.trans hfld) (by decide)
    · rw [hc]
      refine rowsClean_updateRows_preserve (by decide) ?_ h
      intro hf
      have hv := hW.2.1 ha cid v hd
      rcases hfv with ⟨hfld, hvals⟩ | ⟨hfld, hvals⟩
      · exact absurd (hf.trans hfld) (by decide)
      · subst hvals
        simp [hv]

lemma step_workersClean (ctx : ValidationContext) (s : AISuggestion)
    (hW : sWellWritten s) (id : Option String) (fld : String)
    (vals : List String)
    (hfv : (fld = "AvailableSlots" ∧ vals = ["[1,2,3,4,5]"])
         ∨ (fld = "MaxLoadPerPhase" ∧ vals = ["1"]))
    (h : rowsClean "WorkerID" id fld vals ctx.workers) :
    rowsClean "WorkerID" id fld vals (handleApplySuggestion ctx s).workers := by
  rcases handleApply_workers_cases ctx s with hc | ⟨wid, v, hd, hcase⟩
  · rw [hc]
    exact h
  · rcases hcase with ⟨ha, hc⟩ | ⟨ha, hc⟩
    · rw [hc]
      refine rowsClean_updateRows_preserve (by decide) ?_ h
      intro hf
      have hv := hW.2.2.1 ha wid v hd
      rcases hfv with ⟨hfld, hvals⟩ | ⟨hfld, hvals⟩
      · subst hvals
        simp [hv]
      · exact absurd (hf.trans hfld) (by decide)
    · rw [hc]
      refine rowsClean_updateRows_preserve (by decide) ?_ h
      intro hf
      have hv := hW.2.2.2.1 ha wid v hd
      rcases hfv with ⟨hfld, hvals⟩ | ⟨hfld, hvals⟩
      · exact absurd (hf.trans hfld) (by decide)
      · subst hvals
        simp [hv]

lemma step_tasksClean (ctx : ValidationContext) (s : AISuggestion)
    (hW : sWellWritten s) (id : Option String) (fld : String)
    (vals : List String)
    (hfv : (fld = "Duration" ∧ vals = ["1"])
         ∨ (fld = "MaxConcurrent" ∧ vals = ["1"]))
    (h : rowsClean "TaskID" id fld vals ctx.tasks) :
    rowsClean "TaskID" id fld vals (handleApplySuggestion ctx s).tasks := by
  rcases handleApply_tasks_cases ctx s with hc | ⟨tid, v, hd, hcase⟩
  · rw [hc]
    exact h
  · rcases hcase with ⟨ha, hc⟩ | ⟨ha, hc⟩
    · rw [hc]
      refine rowsClean_updateRows_preserve (by decide) ?_ h
      intro hf
      have hv := hW.2.2.2.2.1 ha tid v hd
      rcases hfv with ⟨hfld, hvals⟩ | ⟨hfld, hvals⟩
      · subst hvals
        simp [hv]
      · exact absurd (hf.trans hfld) (by decide)
    · rw [hc]
      refine rowsClean_updateRows_preserve (by decide) ?_ h
      intro hf
      have hv := hW.2.2.2.2.2 ha tid v hd
      rcases hfv with ⟨hfld, hvals⟩ | ⟨hfld, hvals⟩
      · exact absurd (hf.trans hfld) (by decide)
      · subst hvals
        simp [hv]

lemma foldl_clientsClean (L : List AISuggestion) (id : Option String)
    (fld : String) (vals : List String)
    (hfv : (fld = "PriorityLevel" ∧ vals = ["1", "5"])
         ∨ (fld = "AttributesJSON" ∧ vals = ["\x7b\x7d"])) :
    ∀ ctx : ValidationContext, (∀ t ∈ L, sWellWritten t) →
    rowsClean "ClientID" id fld vals ctx.clients →
    rowsClean "ClientID" id fld vals
      (L.foldl handleApplySuggestion ctx).clients := by
  induction L with
  | nil => intro ctx _ h; exact h
  | cons x xs ih =>
    intro ctx hW h
    rw [List.foldl_cons]
    exact ih _ (fun t ht => hW t (List.mem_cons_of_mem x ht))
      (step_clientsClean ctx x (hW x (List.mem_cons_self x xs)) id fld vals hfv h)

lemma foldl_workersClean (L : List AISuggestion) (id : Option String)
    (fld : String) (vals : List String)
    (hfv : (fld = "AvailableSlots" ∧ vals = ["[1,2,3,4,5]"])
         ∨ (fld = "MaxLoadPerPhase" ∧ vals = ["1"])) :
    ∀ ctx : ValidationContext, (∀ t ∈ L, sWellWritten t) →
    rowsClean "WorkerID" id fld vals ctx.workers →
    rowsClean "WorkerID" id fld vals
      (L.foldl handleApplySuggestion ctx).workers := by
  induction L with
  | nil => intro ctx _ h; exact h
  | cons x xs ih =>
    intro ctx hW h
    rw [List.foldl_cons]
    exact ih _ (fun t ht => hW t (List.mem_cons_of_mem x ht))
      (step_workersClean ctx x (hW x (List.mem_cons_self x xs)) id fld vals hfv h)

lemma foldl_tasksClean (L : List AISuggestion) (id : Option String)
    (fld : String) (vals : List String)
    (hfv : (fld = "Duration" ∧ vals = ["1"])
         ∨ (fld = "MaxConcurrent" ∧ vals = ["1"])) :
    ∀ ctx : ValidationContext, (∀ t ∈ L, sWellWritten t) →
    rowsClean "TaskID" id fld vals ctx.tasks →
    rowsClean "TaskID" id fld vals
      (L.foldl handleApplySuggestion ctx).tasks := by
  induction L with
  | nil => intro ctx _ h; exact h
  | cons x xs ih =>
    intro ctx hW h
    rw [List.foldl_cons]
    exact ih _ (fun t ht => hW t (List.mem_cons_of_mem x ht))
      (step_tasksClean ctx x (hW x (List.mem_cons_self x xs)) id fld vals hfv h)

lemma establish_clientsClean (ctx : ValidationContext) (s : AISuggestion)
    (hW : sWellWritten s) (cid : Option String) (v : JVal) (fld : String)
    (vals : List String)
    (hfv : (s.action = "fix_priority" ∧ fld = "PriorityLevel" ∧ vals = ["1", "5"])
         ∨ (s.action = "fix_json" ∧ fld = "AttributesJSON" ∧ vals = ["\x7b\x7d"]))
    (hd : s.data = SugData.clientFix cid v) :
    rowsClean "ClientID" cid fld vals (handleApplySuggestion ctx s).clients := by
  rcases hfv with ⟨ha, hfld, hvals⟩ | ⟨ha, hfld, hvals⟩
  · have hc : (handleApplySuggestion ctx s).clients
        = updateRows "ClientID" cid fld v.toStore ctx.clients := by
      unfold handleApplySuggestion
      rw [if_pos ha, hd]
      subst hfld
      rfl
    rw [hc]
    subst hvals
    refine rowsClean_updateRows_establish ?_ ctx.clients
    rcases hW.1 ha cid v hd with h1 | h1 <;> simp [h1]
  · have hc : (handleApplySuggestion ctx s).clients
        = updateRows "ClientID" cid fld v.toStore ctx.clients := by
      unfold handleApplySuggestion
      rw [if_neg (by rw [ha]; decide), if_pos ha, hd]
      subst hfld
      rfl
    rw [hc]
    subst hvals
    refine rowsClean_updateRows_establish ?_ ctx.clients
    simp [hW.2.1 ha cid v hd]

lemma establish_workersClean (ctx : ValidationContext) (s : AISuggestion)
    (hW : sWellWritten s) (wid : Option String) (v : JVal) (fld : String)
    (vals : List String)
    (hfv : (s.action = "fix_slots" ∧ fld = "AvailableSlots" ∧ vals = ["[1,2,3,4,5]"])
         ∨ (s.action = "fix_load" ∧ fld = "MaxLoadPerPhase" ∧ vals = ["1"]))
    (hd : s.data = SugData.workerFix wid v) :
    rowsClean "WorkerID" wid fld vals (handleApplySuggestion ctx s).workers := by
  rcases hfv with ⟨ha, hfld, hvals⟩ | ⟨ha, hfld, hvals⟩
  · have hc : (handleApplySuggestion ctx s).workers
        = updateRows "WorkerID" wid fld v.toStore ctx.workers := by
      unfold handleApplySuggestion
      rw [if_neg (by rw [ha]; decide), if_neg (by rw [ha]; decide),
        if_pos ha, hd]
      subst hfld
      rfl
    rw [hc]
    subst hvals
    refine rowsClean_updateRows_establish ?_ ctx.workers
    simp [hW.2.2.1 ha wid v hd]
  · have hc : (handleApplySuggestion ctx s).workers
        = updateRows "WorkerID" wid fld v.toStore ctx.workers := by
      unfold handleApplySuggestion
      rw [if_neg (by rw [ha]; decide), if_neg (by rw [ha]; decide),
        if_neg (by rw [ha]; decide), if_pos ha, hd]
      subst hfld
      rfl
    rw [hc]
    subst hvals
    refine rowsClean_updateRows_establish ?_ ctx.workers
    simp [hW.2.2.2.1 ha wid v hd]

lemma establish_tasksClean (ctx : ValidationContext) (s : AISuggestion)
    (hW : sWellWritten s) (tid : Option String) (v : JVal) (fld : String)
    (vals : List String)
    (hfv : (s.action = "fix_duration" ∧ fld = "Duration" ∧ vals = ["1"])
         ∨ (s.action = "fix_concurrent" ∧ fld = "MaxConcurrent" ∧ vals = ["1"]))
    (hd : s.data = SugData.taskFix tid v) :
    rowsClean "TaskID" tid fld vals (handleApplySuggestion ctx s).tasks := by
  rcases hfv with ⟨ha, hfld, hvals⟩ | ⟨ha, hfld, hvals⟩
  · have hc : (handleApplySuggestion ctx s).tasks
        = updateRows "TaskID" tid fld v.toStore ctx.tasks := by
      unfold handleApplySuggestion
      rw [if_neg (by rw [ha]; decide), if_neg (by rw [ha]; decide),
        if_neg (by rw [ha]; decide), if_neg (by rw [ha]; decide),
        if_pos ha, hd]
      subst hfld
      rfl
    rw [hc]
    subst hvals
    refine rowsClean_updateRows_establish ?_ ctx.tasks
    simp [hW.2.2.2.2.1 ha tid v hd]
  · have hc : (handleApplySuggestion ctx s).tasks
        = updateRows "TaskID" tid fld v.toStore ctx.tasks := by
      unfold handleApplySuggestion
      rw [if_neg (by rw [ha]; decide), if_neg (by rw [ha]; decide),
        if_neg (by rw [ha]; decide), if_neg (by rw [ha]; decide),
        if_neg (by rw [ha]; decide), if_pos ha, hd]
      subst hfld
      rfl
    rw [hc]
    subst hvals
    refine rowsClean_updateRows_establish ?_ ctx.tasks
    simp [hW.2.2.2.2.2 ha tid v hd]

lemma applyAll_clientsClean (L : List AISuggestion) (ctx : ValidationContext)
    (s : AISuggestion) (hs : s ∈ L) (hWL : ∀ t ∈ L, sWellWritten t)
    (cid : Option String) (v : JVal) (hd : s.data = SugData.clientFix cid v)
    (fld : String) (vals : List String)
    (hfv : (s.action = "fix_priority" ∧ fld = "PriorityLevel" ∧ vals = ["1", "5"])
         ∨ (s.action = "fix_json" ∧ fld = "AttributesJSON" ∧ vals = ["\x7b\x7d"])) :
    rowsClean "ClientID" cid fld vals (applyAllSuggestions ctx L).clients := by
  obtain ⟨L1, L2, rfl⟩ := List.append_of_mem hs
  unfold applyAllSuggestions
  rw [List.foldl_append, List.foldl_cons]
  refine foldl_clientsClean L2 cid fld vals
    (hfv.imp (fun h => h.2) (fun h => h.2)) _
    (fun t ht => hWL t (by simp [ht])) ?_
  exact establish_clientsClean _ s (hWL s (by simp)) cid v fld vals hfv hd

lemma applyAll_workersClean (L : List AISuggestion) (ctx : ValidationContext)
    (s : AISuggestion) (hs : s ∈ L) (hWL : ∀ t ∈ L, sWellWritten t)
    (wid : Option String) (v : JVal) (hd : s.data = SugData.workerFix wid v)
    (fld : String) (vals : List String)
    (hfv : (s.action = "fix_slots" ∧ fld = "AvailableSlots" ∧ vals = ["[1,2,3,4,5]"])
         ∨ (s.action = "fix_load" ∧ fld = "MaxLoadPerPhase" ∧ vals = ["1"])) :
    rowsClean "WorkerID" wid fld vals (applyAllSuggestions ctx L).workers := by
  obtain ⟨L1, L2, rfl⟩ := List.append_of_mem hs
  unfold applyAllSuggestions
  rw [List.foldl_append, List.foldl_cons]
  refine foldl_workersClean L2 wid fld vals
    (hfv.imp (fun h => h.2) (fun h => h.2)) _
    (fun t ht => hWL t (by simp [ht])) ?_
  exact establish_workersClean _ s (hWL s (by simp)) wid v fld vals hfv hd

lemma applyAll_tasksClean (L : List AISuggestion) (ctx : ValidationContext)
    (s : AISuggestion) (hs : s ∈ L) (hWL : ∀ t ∈ L, sWellWritten t)
    (tid : Option String) (v : JVal) (hd : s.data = SugData.taskFix tid v)
    (fld : String) (vals : List String)
    (hfv : (s.action = "fix_duration" ∧ fld = "Duration" ∧ vals = ["1"])
         ∨ (s.action = "fix_concurrent" ∧ fld = "MaxConcurrent" ∧ vals = ["1"])) :
    rowsClean "TaskID" tid fld vals (applyAllSuggestions ctx L).tasks := by
  obtain ⟨L1, L2, rfl⟩ := List.append_of_mem hs
  unfold applyAllSuggestions
  rw [List.foldl_append, List.foldl_cons]
  refine foldl_tasksClean L2 tid fld vals
    (hfv.imp (fun h => h.2) (fun h => h.2)) _
    (fun t ht => hWL t (by simp [ht])) ?_
  exact establish_tasksClean _ s (hWL s (by simp)) tid v fld vals hfv hd

lemma snd_mem_of_mem_enum {α : Type} {l : List α} {p : Nat × α}
    (h : p ∈ l.enum) : p.2 ∈ l := by
  rcases p with ⟨i, x⟩
  exact List.mem_iff_getElem?.mpr ⟨i, List.mem_enum_iff_getElem?.mp h⟩

lemma priority_diag_origin (data : List Row) (d : ValidationResult)
    (hd : d ∈ outOfRangeValues data "clients") :
    ∃ row ∈ data, d.entityId = rowGet row "ClientID"
      ∧ rowGet row "PriorityLevel" ≠ some "1"
      ∧ rowGet row "PriorityLevel" ≠ some "5" := by
  unfold outOfRangeValues at hd
  obtain ⟨p, hp, hin⟩ := List.mem_flatMap.mp hd
  rcases p with ⟨i, row⟩
  refine ⟨row, snd_mem_of_mem_enum hp, ?_⟩
  dsimp only at hin
  rcases List.mem_append.mp hin with h12 | h3
  · rcases List.mem_append.mp h12 with h1 | h2
    · split at h1
      · split at h1
        · rename_i heq
          have hde := List.mem_singleton.mp h1
          subst hde
          refine ⟨rfl, ?_, ?_⟩
          · intro hc
            rw [hc] at heq
            exact absurd heq (by decide)
          · intro hc
            rw [hc] at heq
            exact absurd heq (by decide)
        · rename_i n heq
          split at h1
          · rename_i hrange
            have hde := List.mem_singleton.mp h1
            subst hde
            refine ⟨rfl, ?_, ?_⟩
            · intro hc
              rw [hc] at heq
              have hn : n = 1 :=
                (Option.some.inj ((by decide :
                  jsParseInt (optStr (some "1")) = some 1).symm.trans heq)).symm
              subst hn
              exact absurd hrange (by decide)
            · intro hc
              rw [hc] at heq
              have hn : n = 5 :=
                (Option.some.inj ((by decide :
                  jsParseInt (optStr (some "5")) = some 5).symm.trans heq)).symm
              subst hn
              exact absurd hrange (by decide)
          · exact absurd h1 (by simp)
      · exact absurd h1 (by simp)
    · rw [if_neg (fun hc => absurd hc.1 (by decide))] at h2
      exact absurd h2 (List.not_mem_nil d)
  · rw [if_neg (fun hc => absurd hc.1 (by decide))] at h3
    exact absurd h3 (List.not_mem_nil d)

lemma load_diag_origin (data : List Row) (d : ValidationResult)
    (hd : d ∈ outOfRangeValues data "workers") :
    ∃ row ∈ data, d.entityId = rowGet row "WorkerID"
      ∧ rowGet row "MaxLoadPerPhase" ≠ some "1" := by
  unfold outOfRangeValues at hd
  obtain ⟨p, hp, hin⟩ := List.mem_flatMap.mp hd
  rcases p with ⟨i, row⟩
  refine ⟨row, snd_mem_of_mem_enum hp, ?_⟩
  dsimp only at hin
  rcases List.mem_append.mp hin with h12 | h3
  · rcases List.mem_append.mp h12 with h1 | h2
    · rw [if_neg (fun hc => absurd hc.1 (by decide))] at h1
      exact absurd h1 (List.not_mem_nil d)
    · rw [if_neg (fun hc => absurd hc.1 (by decide))] at h2
      exact absurd h2 (List.not_mem_nil d)
  · split at h3
    · split at h3
      · rename_i heq
        have hde := List.mem_singleton.mp h3
        subst hde
        refine ⟨rfl, ?_⟩
        intro hc
        rw [hc] at heq
        exact absurd heq (by decide)
      · rename_i n heq
        split at h3
        · rename_i hrange
          have hde := List.mem_singleton.mp h3
          subst hde
          refine ⟨rfl, ?_⟩
          intro hc
          rw [hc] at heq
          have hn : n = 1 :=
            (Option.some.inj ((by decide :
              jsParseInt (optStr (some "1")) = some 1).symm.trans heq)).symm
          subst hn
          exact absurd hrange (by decide)
        · exact absurd h3 (by simp)
    · exact absurd h3 (by simp)

lemma duration_diag_origin (data : List Row) (d : ValidationResult)
    (hd : d ∈ outOfRangeValues data "tasks") :
    d.field = some "Duration"
    ∧ ∃ row ∈ data, d.entityId = rowGet row "TaskID"
      ∧ rowGet row "Duration" ≠ some "1" := by
  unfold outOfRangeValues at hd
  obtain ⟨p, hp, hin⟩ := List.mem_flatMap.mp hd
  rcases p with ⟨i, row⟩
  dsimp only at hin
  rcases List.mem_append.mp hin with h12 | h3
  · rcases List.mem_append.mp h12 with h1 | h2
    · rw [if_neg (fun hc => absurd hc.1 (by decide))] at h1
      exact absurd h1 (List.not_mem_nil d)
    · split at h2
      · split at h2
        · rename_i heq
          have hde := List.mem_singleton.mp h2
          subst hde
          refine ⟨rfl, row, snd_mem_of_mem_enum hp, rfl, ?_⟩
          intro hc
          rw [hc] at heq
          exact absurd heq (by decide)
        · rename_i n heq
          split at h2
          · rename_i hrange
            have hde := List.mem_singleton.mp h2
            subst hde
            refine ⟨rfl, row, snd_mem_of_mem_enum hp, rfl, ?_⟩
            intro hc
            rw [hc] at heq
            have hn : n = 1 :=
              (Option.some.inj ((by decide :
                jsParseInt (optStr (some "1")) = some 1).symm.trans heq)).symm
            subst hn
            exact absurd hrange (by decide)
          · exact absurd h2 (by simp)
      · exact absurd h2 (by simp)
  · rw [if_neg (fun hc => absurd hc.1 (by decide))] at h3
    exact absurd h3 (List.not_mem_nil d)

lemma json_diag_origin (data : List Row) (d : ValidationResult)
    (hd : d ∈ brokenJSON data "clients") :
    ∃ row ∈ data, d.entityId = rowGet row "ClientID"
      ∧ rowGet row "AttributesJSON" ≠ some "\x7b\x7d" := by
  unfold brokenJSON at hd
  obtain ⟨p, hp, hin⟩ := List.mem_flatMap.mp hd
  rcases p with ⟨i, row⟩
  refine ⟨row, snd_mem_of_mem_enum hp, ?_⟩
  dsimp only at hin
  split at hin
  · split at hin
    · exact absurd hin (by simp)
    · rename_i heq
      have hde := List.mem_singleton.mp hin
      subst hde
      refine ⟨rfl, ?_⟩
      intro hc
      rw [hc] at heq
      have hS : (jsonParse (optStr (some "\x7b\x7d"))).isSome = true := rfl
      rw [heq] at hS
      exact Bool.noConfusion hS
  · exact absurd hin (by simp)

lemma slots_diag_origin (data : List Row) (d : ValidationResult)
    (hd : d ∈ malformedLists data "workers")
    (hf : d.field = some "AvailableSlots") :
    ∃ row ∈ data, d.entityId = rowGet row "WorkerID"
      ∧ rowGet row "AvailableSlots" ≠ some "[1,2,3,4,5]" := by
  unfold malformedLists at hd
  obtain ⟨p, hp, hin⟩ := List.mem_flatMap.mp hd
  rcases p with ⟨i, row⟩
  refine ⟨row, snd_mem_of_mem_enum hp, ?_⟩
  dsimp only at hin
  rcases List.mem_append.mp hin with hslot | hlist
  · split at hslot
    · split at hslot
      · exact absurd hslot (by simp)
      · rename_i raw heqv
        split at hslot
        · rename_i j heqj
          split at hslot
          · rename_i elems
            split at hslot
            · exact absurd hslot (by simp)
            · rename_i hall
              have hde := List.mem_singleton.mp hslot
              subst hde
              refine ⟨rfl, ?_⟩
              intro hc
              have hraw : raw = "[1,2,3,4,5]" :=
                Option.some.inj (heqv.symm.trans hc)
              subst hraw
              have hval : jsonParse "[1,2,3,4,5]" = some (Json.arr
                  [.num "1", .num "2", .num "3", .num "4", .num "5"]) := rfl
              have hje := Option.some.inj (hval.symm.trans heqj)
              injection hje with hje'
              subst hje'
              exact hall (by decide)
          · rename_i hnotarr
            have hde := List.mem_singleton.mp hslot
            subst hde
            refine ⟨rfl, ?_⟩
            intro hc
            have hraw : raw = "[1,2,3,4,5]" :=
              Option.some.inj (heqv.symm.trans hc)
            subst hraw
            have hval : jsonParse "[1,2,3,4,5]" = some (Json.arr
                [.num "1", .num "2", .num "3", .num "4", .num "5"]) := rfl
            have hje := Option.some.inj (heqj.symm.trans hval)
            exact hnotarr _ hje
        · rename_i heqj
          have hde := List.mem_singleton.mp hslot
          subst hde
          refine ⟨rfl, ?_⟩
          intro hc
          have hraw : raw = "[1,2,3,4,5]" :=
            Option.some.inj (heqv.symm.trans hc)
          subst hraw
          have hS : (jsonParse "[1,2,3,4,5]").isSome = true := rfl
          rw [heqj] at hS
          exact Bool.noConfusion hS
    · exact absurd hslot (by simp)
  · obtain ⟨fldx, hfldx, hdx⟩ := List.mem_flatMap.mp hlist
    have hlf : listFieldsOf "workers" = ["Skills"] := rfl
    rw [hlf] at hfldx
    have hfx := List.mem_singleton.mp hfldx
    subst hfx
    split at hdx
    · exact absurd hdx (by simp)
    · split at hdx
      · split at hdx
        · have hde := List.mem_singleton.mp hdx
          subst hde
          exact absurd (Option.some.inj hf) (by decide)
        · exact absurd hdx (by simp)
      · exact absurd hdx (by simp)

/-- C5: applying every correction returned by `generateCorrections` (via the
panel's `handleApplySuggestion` routing) and re-running the field validators
on the corrected snapshot yields no diagnostic for any entity/field a
suggestion targeted: no out-of-range `PriorityLevel` for a fix_priority
target, no broken-JSON diagnostic for a fix_json target, no malformed
`AvailableSlots` diagnostic for a fix_slots target, no out-of-range
`MaxLoadPerPhase` for a fix_load target, no out-of-range `Duration` for a
fix_duration target; and no validator examines `MaxConcurrent` at all, so
fix_concurrent targets validate clean vacuously. -/
theorem corrections_roundtrip_clean (ctx : ValidationContext) :
    ∀ s ∈ generateCorrections ctx,
      (s.action = "fix_priority" → ∀ cid v, s.data = SugData.clientFix cid v →
        ∀ d ∈ outOfRangeValues
            (applyAllSuggestions ctx (generateCorrections ctx)).clients "clients",
          d.entityId ≠ cid)
      ∧ (s.action = "fix_json" → ∀ cid v, s.data = SugData.clientFix cid v →
        ∀ d ∈ brokenJSON
            (applyAllSuggestions ctx (generateCorrections ctx)).clients "clients",
          d.entityId ≠ cid)
      ∧ (s.action = "fix_slots" → ∀ wid v, s.data = SugData.workerFix wid v →
        ∀ d ∈ malformedLists
            (applyAllSuggestions ctx (generateCorrections ctx)).workers "workers",
          d.field = some "AvailableSlots" → d.entityId ≠ wid)
      ∧ (s.action = "fix_load" → ∀ wid v, s.data = SugData.workerFix wid v →
        ∀ d ∈ outOfRangeValues
            (applyAllSuggestions ctx (generateCorrections ctx)).workers "workers",
          d.entityId ≠ wid)
      ∧ (s.action = "fix_duration" → ∀ tid v, s.data = SugData.taskFix tid v →
        ∀ d ∈ outOfRangeValues
            (applyAllSuggestions ctx (generateCorrections ctx)).tasks "tasks",
          d.entityId ≠ tid)
      ∧ (∀ d ∈ outOfRangeValues
            (applyAllSuggestions ctx (generateCorrections ctx)).tasks "tasks",
          d.field ≠ some "MaxConcurrent") := by
  intro s hs
  have hWL := wellWritten_generateCorrections ctx
  refine ⟨?_, ?_, ?_, ?_, ?_, ?_⟩
  · intro ha cid v hd d hdm hEq
    have hclean := applyAll_clientsClean (generateCorrections ctx) ctx s hs hWL
      cid v hd "PriorityLevel" ["1", "5"] (Or.inl ⟨ha, rfl, rfl⟩)
    obtain ⟨row, hrow, hid, hne1, hne5⟩ := priority_diag_origin _ d hdm
    obtain ⟨w, hw, hval⟩ := hclean row hrow (hid.symm.trans hEq)
    rcases (by simpa using hw : w = "1" ∨ w = "5") with h | h
    · exact hne1 (h ▸ hval)
    · exact hne5 (h ▸ hval)
  · intro ha cid v hd d hdm hEq
    have hclean := applyAll_clientsClean (generateCorrections ctx) ctx s hs hWL
      cid v hd "AttributesJSON" ["\x7b\x7d"] (Or.inr ⟨ha, rfl, rfl⟩)
    obtain ⟨row, hrow, hid, hne⟩ := json_diag_origin _ d hdm
    obtain ⟨w, hw, hval⟩ := hclean row hrow (hid.symm.trans hEq)
    have hw1 : w = "\x7b\x7d" := by simpa using hw
    exact hne (hw1 ▸ hval)
  · intro ha wid v hd d hdm hfld hEq
    have hclean := applyAll_workersClean (generateCorrections ctx) ctx s hs hWL
      wid v hd "AvailableSlots" ["[1,2,3,4,5]"] (Or.inl ⟨ha, rfl, rfl⟩)
    obtain ⟨row, hrow, hid, hne⟩ := slots_diag_origin _ d hdm hfld
    obtain ⟨w, hw, hval⟩ := hclean row hrow (hid.symm.trans hEq)
    have hw1 : w = "[1,2,3,4,5]" := by simpa using hw
    exact hne (hw1 ▸ hval)
  · intro ha wid v hd d hdm hEq
    have hclean := applyAll_workersClean (generateCorrections ctx) ctx s hs hWL
      wid v hd "MaxLoadPerPhase" ["1"] (Or.inr ⟨ha, rfl, rfl⟩)
    obtain ⟨row, hrow, hid, hne⟩ := load_diag_origin _ d hdm
    obtain ⟨w, hw, hval⟩ := hclean row hrow (hid.symm.trans hEq)
    have hw1 : w = "1" := by simpa using hw
    exact hne (hw1 ▸ hval)
  · intro ha tid v hd d hdm hEq
    have hclean := applyAll_tasksClean (generateCorrections ctx) ctx s hs hWL
      tid v hd "Duration" ["1"] (Or.inl ⟨ha, rfl, rfl⟩)
    obtain ⟨hfldD, row, hrow, hid, hne⟩ := duration_diag_origin _ d hdm
    obtain ⟨w, hw, hval⟩ := hclean row hrow (hid.symm.trans hEq)
    have hw1 : w = "1" := by simpa using hw
    exact hne (hw1 ▸ hval)
  · intro d hdm hc
    have hfldD := (duration_diag_origin _ d hdm).1
    exact absurd (Option.some.inj (hfldD.symm.trans hc)) (by decide)

/-- C5 (witness): the client `C1` with `PriorityLevel` `"9"` receives the
fix_priority suggestion, and after applying all suggestions the re-run
range validator emits no diagnostic attributed to `C1`. -/
theorem corrections_roundtrip_clean_witness :
    ({ id := "fix-priority-C1", type := "correction",
       message := "Fix PriorityLevel for undefined", confidence := ⟨9, 10⟩,
       action := "fix_priority",
       data := SugData.clientFix (some "C1") (.num ⟨5, 1⟩) } : AISuggestion)
      ∈ generateCorrections ⟨[[("ClientID", "C1"), ("PriorityLevel", "9")]], [], []⟩
    ∧ ∀ d ∈ outOfRangeValues
        (applyAllSuggestions ⟨[[("ClientID", "C1"), ("PriorityLevel", "9")]], [], []⟩
          (generateCorrections
            ⟨[[("ClientID", "C1"), ("PriorityLevel", "9")]], [], []⟩)).clients
        "clients",
      d.entityId ≠ some "C1" := by
  have hmem : ({ id := "fix-priority-C1", type := "correction",
                 message := "Fix PriorityLevel for undefined",
                 confidence := ⟨9, 10⟩, action := "fix_priority",
                 data := SugData.clientFix (some "C1") (.num ⟨5, 1⟩) }
        : AISuggestion)
      ∈ generateCorrections
        ⟨[[("ClientID", "C1"), ("PriorityLevel", "9")]], [], []⟩ := by
    rw [show generateCorrections
        ⟨[[("ClientID", "C1"), ("PriorityLevel", "9")]], [], []⟩
      = [{ id := "fix-priority-C1", type := "correction",
           message := "Fix PriorityLevel for undefined", confidence := ⟨9, 10⟩,
           action := "fix_priority",
           data := SugData.clientFix (some "C1") (.num ⟨5, 1⟩) }] from rfl]
    exact List.mem_singleton.mpr rfl
  exact ⟨hmem,
    (corrections_roundtrip_clean
      ⟨[[("ClientID", "C1"), ("PriorityLevel", "9")]], [], []⟩ _ hmem).1
      rfl (some "C1") (.num ⟨5, 1⟩) rfl⟩
